import Mathlib

/-!
# 3D EEG signal visualizer: a verification development

A shallow embedding of `Brain_activity_3d/main.cpp`.

* `float` values are idealised as elements of a linearly ordered field `α`
  (instantiated with `ℚ` for evaluation and with `ℝ` whenever `std::sqrt`
  or the trigonometric functions are involved); rounding, infinities and
  NaN are outside the model.
* `int` values are mathematical integers (signed overflow is undefined
  behaviour in C++ and window coordinates are far from the limits).
* `std::map<std::string, T>` is an association list kept sorted by key.
* The process-wide globals of the program are the fields of `Globals`;
  every C++ function that mutates them is a function `Globals α → Globals α`.
* OpenGL / GLUT calls are data (`GLCall`), interpreted by `glRun`.
-/

namespace BrainActivity

/-! ## Library primitives used by the source -/

/-- `std::min(a, b)`: `(b < a) ? b : a`. -/
def stdMin {α : Type} [LinearOrderedField α] (a b : α) : α :=
  if b < a then b else a

/-- `std::max(a, b)`: `(a < b) ? b : a`. -/
def stdMax {α : Type} [LinearOrderedField α] (a b : α) : α :=
  if a < b then b else a

/-- `std::clamp(v, lo, hi)`: `(v < lo) ? lo : (hi < v) ? hi : v`. -/
def stdClamp {α : Type} [LinearOrderedField α] (v lo hi : α) : α :=
  if v < lo then lo else if hi < v then hi else v

/-- The constant `FLT_MAX` of `<cfloat>`: `(2 - 2^-23) * 2^127`. -/
def FLT_MAX {α : Type} [LinearOrderedField α] : α :=
  340282346638528859811704183484516925440

/-- `std::map<std::string, T>`: entries in key order. -/
abbrev StdMap (β : Type) := List (String × β)

/-- `m[k] = v` on a `std::map`: overwrite the entry of `k`, or insert it
at its place in key order. -/
def mapAssign {β : Type} : StdMap β → String → β → StdMap β
  | [], k, v => [(k, v)]
  | (k', v') :: rest, k, v =>
    if k < k' then (k, v) :: (k', v') :: rest
    else if k = k' then (k, v) :: rest
    else (k', v') :: mapAssign rest k v

/-- `m.find(k)`: `none` stands for `m.end()`. -/
def mapFind {β : Type} : StdMap β → String → Option β
  | [], _ => none
  | (k', v') :: rest, k => if k = k' then some v' else mapFind rest k

/-! ## Data model -/

/-- `struct Vec3 { float x, y, z; }`. -/
structure Vec3 (α : Type) where
  x : α
  y : α
  z : α
deriving DecidableEq, Repr

/-- The global variables of `main.cpp`. -/
structure Globals (α : Type) where
  lastMouseX : Int
  lastMouseY : Int
  leftButtonDown : Bool
  rightButtonDown : Bool
  brainVertices : List α
  brainIndices : List Nat
  electrodePositions : StdMap (Vec3 α)
  activityValues : StdMap α
  brainMin : Vec3 α
  brainMax : Vec3 α
  electrodesMin : Vec3 α
  electrodesMax : Vec3 α
  brainCentre : Vec3 α
  rotationY : α
  zoom : α
  rotateX : α
  rotateY : α

/-- The initial values of the globals (lines 14-37). -/
def Globals.initial {α : Type} [LinearOrderedField α] : Globals α where
  lastMouseX := 0
  lastMouseY := 0
  leftButtonDown := false
  rightButtonDown := false
  brainVertices := []
  brainIndices := []
  electrodePositions := []
  activityValues := []
  brainMin := ⟨FLT_MAX, FLT_MAX, FLT_MAX⟩
  brainMax := ⟨-FLT_MAX, -FLT_MAX, -FLT_MAX⟩
  electrodesMin := ⟨FLT_MAX, FLT_MAX, FLT_MAX⟩
  electrodesMax := ⟨-FLT_MAX, -FLT_MAX, -FLT_MAX⟩
  brainCentre := ⟨0, 0, 0⟩
  rotationY := 0
  zoom := -(5 / 2)
  rotateX := 0
  rotateY := 0

/-! ## Loaders -/

/-- The six `std::min` / `std::max` updates of a running box by one point
(lines 63-68 and 94-99). -/
def growBox {α : Type} [LinearOrderedField α]
    (box : Vec3 α × Vec3 α) (x y z : α) : Vec3 α × Vec3 α :=
  (⟨stdMin box.1.x x, stdMin box.1.y y, stdMin box.1.z z⟩,
   ⟨stdMax box.2.x x, stdMax box.2.y y, stdMax box.2.z z⟩)

/-- One iteration of the inner loop of `loadBrainModel` (lines 54-68);
`attrib` is `attrib.vertices`, `idx` is `idx.vertex_index`.  A read past
the end of `attrib` (undefined behaviour in C++) reads `0`. -/
def loadBrainModelStep {α : Type} [LinearOrderedField α] (attrib : List α)
    (g : Globals α) (idx : Nat) : Globals α :=
  let x := attrib.getD (3 * idx + 0) 0
  let y := attrib.getD (3 * idx + 1) 0
  let z := attrib.getD (3 * idx + 2) 0
  let box := growBox (g.brainMin, g.brainMax) x y z
  { g with
    brainVertices := g.brainVertices ++ [x, y, z]
    brainIndices := g.brainIndices ++ [g.brainIndices.length % 2 ^ 32]
    brainMin := box.1
    brainMax := box.2 }

/-- The body of `loadBrainModel` after a successful `tinyobj::LoadObj`
(lines 52-74): `shapes` holds, per shape, the `vertex_index` of every
entry of `shape.mesh.indices`. -/
def loadBrainModel {α : Type} [LinearOrderedField α] (attrib : List α)
    (shapes : List (List Nat)) (g : Globals α) : Globals α :=
  let g := shapes.foldl (fun g shape => shape.foldl (loadBrainModelStep attrib) g) g
  { g with
    brainCentre :=
      ⟨(g.brainMin.x + g.brainMax.x) / 2,
       (g.brainMin.y + g.brainMax.y) / 2,
       (g.brainMin.z + g.brainMax.z) / 2⟩ }

/-- One iteration of the loop of `loadElectrodePositions` (lines 91-99). -/
def loadElectrodePositionsStep {α : Type} [LinearOrderedField α]
    (g : Globals α) (item : String × (α × α × α)) : Globals α :=
  let label := item.1
  let x := item.2.1
  let y := item.2.2.1
  let z := item.2.2.2
  let box := growBox (g.electrodesMin, g.electrodesMax) x y z
  { g with
    electrodePositions := mapAssign g.electrodePositions label ⟨x, y, z⟩
    electrodesMin := box.1
    electrodesMax := box.2 }

/-- The loop of `loadElectrodePositions` (lines 90-100) over `data.items()`. -/
def loadElectrodePositions {α : Type} [LinearOrderedField α]
    (data : List (String × (α × α × α))) (g : Globals α) : Globals α :=
  data.foldl loadElectrodePositionsStep g

/-- The body of the loop of `normalizeElectrodePositions` (lines 119-121):
the new value of `pos`. -/
def registerPoint {α : Type} [LinearOrderedField α] (g : Globals α)
    (brainSize electrodesSize : Vec3 α) (pos : Vec3 α) : Vec3 α :=
  { x := g.brainMin.x + ((pos.x - g.electrodesMin.x) / electrodesSize.x) * brainSize.x
    y := g.brainMin.y + ((pos.y - g.electrodesMin.y) / electrodesSize.y) * brainSize.y
    z := g.brainMin.z + ((pos.z - g.electrodesMin.z) / electrodesSize.z) * brainSize.z }

/-- `normalizeElectrodePositions` (lines 105-123). -/
def normalizeElectrodePositions {α : Type} [LinearOrderedField α]
    (g : Globals α) : Globals α :=
  let brainSize : Vec3 α :=
    ⟨g.brainMax.x - g.brainMin.x, g.brainMax.y - g.brainMin.y, g.brainMax.z - g.brainMin.z⟩
  let electrodesSize : Vec3 α :=
    ⟨g.electrodesMax.x - g.electrodesMin.x,
     g.electrodesMax.y - g.electrodesMin.y,
     g.electrodesMax.z - g.electrodesMin.z⟩
  { g with
    electrodePositions := g.electrodePositions.map fun entry =>
      (entry.1, registerPoint g brainSize electrodesSize entry.2) }

/-- The first loop of `loadActivityValues` (lines 136-141): the map after
the assignments, and `maxActivity`. -/
def loadActivityValuesRaw {α : Type} [LinearOrderedField α]
    (data : List (String × α)) (g : Globals α) : StdMap α × α :=
  data.foldl
    (fun acc item => (mapAssign acc.1 item.1 item.2, stdMax acc.2 item.2))
    (g.activityValues, 0)

/-- `loadActivityValues` (lines 136-148) over `data.items()`; the second
component is the final `maxActivity`. -/
def loadActivityValues {α : Type} [LinearOrderedField α]
    (data : List (String × α)) (g : Globals α) : Globals α × α :=
  let raw := loadActivityValuesRaw data g
  let maxActivity := raw.2
  let values :=
    if maxActivity > 0 then raw.1.map fun entry => (entry.1, entry.2 / maxActivity)
    else raw.1
  ({ g with activityValues := values }, maxActivity)

/-! ## Colour mapping -/

/-- The `if` branch of `activityToColor` (lines 161-163). -/
def colorLow {α : Type} [LinearOrderedField α] (value : α) : α × α × α :=
  let r := 0
  let g := value * 2
  let b := 1 - g
  (r, g, b)

/-- The `else` branch of `activityToColor` (lines 166-168). -/
def colorHigh {α : Type} [LinearOrderedField α] (value : α) : α × α × α :=
  let r := (value - 1 / 2) * 2
  let g := 1 - r
  let b := 0
  (r, g, b)

/-- `activityToColor` (lines 154-170); `sqrt` is `std::sqrt`. The result is
the triple `(r, g, b)` written through the reference parameters. -/
def activityToColor {α : Type} [LinearOrderedField α] (sqrt : α → α)
    (value : α) : α × α × α :=
  let value := stdClamp value 0 1
  let value := sqrt value
  if value < 1 / 2 then colorLow value else colorHigh value

/-! ## Pointer input -/

/-- `motion` (lines 231-247); the `glutPostRedisplay()` request it ends
with does not touch the globals. -/
def motion {α : Type} [LinearOrderedField α] (x y : Int) (g : Globals α) : Globals α :=
  let dx := x - g.lastMouseX
  let dy := y - g.lastMouseY
  let g :=
    if g.leftButtonDown then
      { g with
        rotateX := g.rotateX + (dy : α) * (3 / 10)
        rotationY := g.rotationY + (dx : α) * (3 / 10) }
    else g
  let g :=
    if g.rightButtonDown then { g with zoom := g.zoom + (dy : α) * (1 / 100) }
    else g
  { g with lastMouseX := x, lastMouseY := y }

/-- `mouse` (lines 220-230), with `GLUT_LEFT_BUTTON = 0`,
`GLUT_RIGHT_BUTTON = 2` and `GLUT_DOWN = 0`. -/
def mouse {α : Type} (button state x y : Int) (g : Globals α) : Globals α :=
  let g :=
    if button = 0 then { g with leftButtonDown := decide (state = 0) }
    else if button = 2 then { g with rightButtonDown := decide (state = 0) }
    else g
  { g with lastMouseX := x, lastMouseY := y }

/-- The update of the globals done by `timer` (line 276). -/
def timer {α : Type} [LinearOrderedField α] (g : Globals α) : Globals α :=
  { g with rotationY := g.rotationY + 1 / 10 }

/-- The four loading steps of `main` (lines 311-314), after which the globals
they write are no longer modified. -/
def startup {α : Type} [LinearOrderedField α] (attrib : List α) (shapes : List (List Nat))
    (electrodeData : List (String × (α × α × α))) (activityData : List (String × α)) :
    Globals α :=
  let g := loadBrainModel attrib shapes Globals.initial
  let g := loadElectrodePositions electrodeData g
  let g := normalizeElectrodePositions g
  (loadActivityValues activityData g).1

/-! ## Rendering -/

/-- The functions of `<cmath>`, `<cstdio>` and of the OpenGL implementation
that the rendering code relies on: `std::sqrt`, the cosine and sine of an
angle given in degrees (used by `glRotatef`), and the text
`snprintf(buffer, 64, "%s: %.4f", label, activity)` leaves in `buffer`. -/
structure Lib (α : Type) where
  sqrt : α → α
  cosDeg : α → α
  sinDeg : α → α
  snprintf : String → α → String

/-- The OpenGL / GLUT calls issued by the drawing code. -/
inductive GLCall (α : Type) where
  | clear
  | loadIdentity
  | translatef (x y z : α)
  | rotatef (angle x y z : α)
  | pushMatrix
  | popMatrix
  | color3f (r g b : α)
  | enableClientState
  | disableClientState
  | vertexPointer (vertices : List α)
  | drawElements (indices : List Nat)
  | solidSphere (radius : α) (nSlices nStacks : Nat)
  | rasterPos3f (x y z : α)
  | bitmapCharacter (c : Char)
  | swapBuffers

/-- True on `glutSolidSphere` calls. -/
def GLCall.isSphere {α : Type} : GLCall α → Bool
  | .solidSphere _ _ _ => true
  | _ => false

/-- True on `glRasterPos3f` calls (the anchor of a text label). -/
def GLCall.isLabel {α : Type} : GLCall α → Bool
  | .rasterPos3f _ _ _ => true
  | _ => false

/-- True on `glDrawElements` calls. -/
def GLCall.isMesh {α : Type} : GLCall α → Bool
  | .drawElements _ => true
  | _ => false

/-- `drawBrainModel` (lines 179-186). -/
def drawBrainModel {α : Type} [LinearOrderedField α] (g : Globals α) : List (GLCall α) :=
  [ .enableClientState,
    .vertexPointer g.brainVertices,
    .color3f (86 / 100) (72 / 100) (72 / 100),
    .drawElements g.brainIndices,
    .disableClientState ]

/-- The calls issued by `drawElectrodes` when `find` succeeds with
`it->second = activity` (lines 193-217). -/
def drawElectrodeCalls {α : Type} [LinearOrderedField α] (lib : Lib α)
    (label : String) (pos : Vec3 α) (activity : α) : List (GLCall α) :=
  let rgb := activityToColor lib.sqrt activity
  let text := lib.snprintf label activity
  [ .color3f rgb.1 rgb.2.1 rgb.2.2,
    .pushMatrix,
    .translatef pos.x pos.y pos.z,
    .solidSphere (1 / 100) 16 16,
    .popMatrix,
    .color3f 0 0 0,
    .rasterPos3f (pos.x + 25 / 1000) (pos.y + 12 / 1000) pos.z ]
  ++ text.toList.map .bitmapCharacter

/-- One iteration of the loop of `drawElectrodes` (lines 190-217). -/
def drawElectrode {α : Type} [LinearOrderedField α] (lib : Lib α)
    (activityValues : StdMap α) (entry : String × Vec3 α) : List (GLCall α) :=
  match mapFind activityValues entry.1 with
  | none => []
  | some activity => drawElectrodeCalls lib entry.1 entry.2 activity

/-- `drawElectrodes` (lines 188-219). -/
def drawElectrodes {α : Type} [LinearOrderedField α] (lib : Lib α)
    (g : Globals α) : List (GLCall α) :=
  g.electrodePositions.flatMap (drawElectrode lib g.activityValues)

/-- `display` (lines 250-273). -/
def display {α : Type} [LinearOrderedField α] (lib : Lib α)
    (g : Globals α) : List (GLCall α) :=
  let centerX := (g.brainMin.x + g.brainMax.x) / 2
  let centerY := (g.brainMin.y + g.brainMax.y) / 2
  let centerZ := (g.brainMin.z + g.brainMax.z) / 2
  [ .clear,
    .loadIdentity,
    .translatef 0 0 g.zoom,
    .rotatef g.rotateX 1 0 0,
    .rotatef g.rotationY 0 1 0,
    .rotatef 180 1 0 0,
    .translatef (-g.brainCentre.x) (-g.brainCentre.y) (-g.brainCentre.z),
    .pushMatrix,
    .translatef centerX centerY centerZ,
    .rotatef 180 1 0 0,
    .translatef (-centerX) (-centerY) (-centerZ) ]
  ++ drawBrainModel g
  ++ [.popMatrix]
  ++ drawElectrodes lib g
  ++ [.swapBuffers]

/-! ## The OpenGL modelview pipeline -/

/-- A 4x4 modelview matrix. -/
abbrev Mat4 (α : Type) := Matrix (Fin 4) (Fin 4) α

/-- The matrix `glTranslatef(x, y, z)` multiplies the current matrix by. -/
def translation {α : Type} [LinearOrderedField α] (x y z : α) : Mat4 α :=
  !![1, 0, 0, x;
     0, 1, 0, y;
     0, 0, 1, z;
     0, 0, 0, 1]

/-- The matrix `glRotatef(angle, x, y, z)` multiplies the current matrix by,
for an axis `(x, y, z)` of length 1 (the only axes the source passes), where
`c` and `s` are the cosine and the sine of `angle`. -/
def rotation {α : Type} [LinearOrderedField α] (c s x y z : α) : Mat4 α :=
  !![x * x * (1 - c) + c,     x * y * (1 - c) - z * s, x * z * (1 - c) + y * s, 0;
     y * x * (1 - c) + z * s, y * y * (1 - c) + c,     y * z * (1 - c) - x * s, 0;
     x * z * (1 - c) - y * s, y * z * (1 - c) + x * s, z * z * (1 - c) + c,     0;
     0,                       0,                       0,                       1]

/-- The image of the object-space point `p` under the modelview matrix `m`. -/
def transformPoint {α : Type} [LinearOrderedField α] (m : Mat4 α) (p : Vec3 α) : Vec3 α :=
  let v := m.mulVec ![p.x, p.y, p.z, 1]
  ⟨v 0, v 1, v 2⟩

/-- A primitive put on the draw surface: the call, and the modelview matrix
and colour current when it was issued. -/
structure Rendered (α : Type) where
  call : GLCall α
  modelview : Mat4 α
  color : α × α × α

/-- The part of the OpenGL state the calls of `GLCall` act on, and the
primitives rendered so far. -/
structure GLState (α : Type) where
  modelview : Mat4 α
  stack : List (Mat4 α)
  color : α × α × α
  rendered : List (Rendered α)

/-- The effect of one call on the OpenGL state. -/
def glStep {α : Type} [LinearOrderedField α] (lib : Lib α)
    (st : GLState α) (call : GLCall α) : GLState α :=
  match call with
  | .loadIdentity => { st with modelview := 1 }
  | .translatef x y z => { st with modelview := st.modelview * translation x y z }
  | .rotatef angle x y z =>
    { st with modelview := st.modelview * rotation (lib.cosDeg angle) (lib.sinDeg angle) x y z }
  | .pushMatrix => { st with stack := st.modelview :: st.stack }
  | .popMatrix =>
    match st.stack with
    | [] => st
    | m :: rest => { st with modelview := m, stack := rest }
  | .color3f r g b => { st with color := (r, g, b) }
  | .drawElements _ | .solidSphere _ _ _ | .rasterPos3f _ _ _ | .bitmapCharacter _ =>
    { st with rendered := st.rendered ++ [⟨call, st.modelview, st.color⟩] }
  | .clear => { st with rendered := [] }
  | .enableClientState | .disableClientState | .vertexPointer _ | .swapBuffers => st

/-- The OpenGL state after a sequence of calls. -/
def glRun {α : Type} [LinearOrderedField α] (lib : Lib α)
    (st : GLState α) (calls : List (GLCall α)) : GLState α :=
  calls.foldl (glStep lib) st

/-- What one frame puts on the draw surface: the primitives rendered by the
calls of `display`, whatever the OpenGL state the frame starts in. -/
def frame {α : Type} [LinearOrderedField α] (lib : Lib α) (g : Globals α)
    (st : GLState α) : List (Rendered α) :=
  (glRun lib st (display lib g)).rendered

/-! ## Specification vocabulary -/

/-- The points stored in a label-to-position map. -/
def points {α : Type} (m : StdMap (Vec3 α)) : List (Vec3 α) :=
  m.map Prod.snd

/-- The point of a JSON triple `[x, y, z]`. -/
def tripleToVec3 {α : Type} (t : α × α × α) : Vec3 α :=
  ⟨t.1, t.2.1, t.2.2⟩

/-- The point read from `attrib.vertices` for `vertex_index = idx`. -/
def corner {α : Type} [LinearOrderedField α] (attrib : List α) (idx : Nat) : Vec3 α :=
  ⟨attrib.getD (3 * idx + 0) 0, attrib.getD (3 * idx + 1) 0, attrib.getD (3 * idx + 2) 0⟩

/-- `lo` and `hi` are the least and the greatest of the values `vals`:
they bound every value and each is one of the values. -/
def IsExtent {α : Type} [LinearOrderedField α] (vals : List α) (lo hi : α) : Prop :=
  (∀ v ∈ vals, lo ≤ v ∧ v ≤ hi) ∧ lo ∈ vals ∧ hi ∈ vals

instance {α : Type} [LinearOrderedField α] (vals : List α) (lo hi : α) :
    Decidable (IsExtent vals lo hi) := by
  unfold IsExtent; infer_instance

/-- The box `(lo, hi)` is the axis-aligned bounding box of `pts`: on every
axis it bounds every point, and some point attains `lo` and some point
attains `hi`. -/
def IsBoundingBox {α : Type} [LinearOrderedField α]
    (pts : List (Vec3 α)) (lo hi : Vec3 α) : Prop :=
  IsExtent (pts.map Vec3.x) lo.x hi.x ∧
  IsExtent (pts.map Vec3.y) lo.y hi.y ∧
  IsExtent (pts.map Vec3.z) lo.z hi.z

instance {α : Type} [LinearOrderedField α] (pts : List (Vec3 α)) (lo hi : Vec3 α) :
    Decidable (IsBoundingBox pts lo hi) := by
  unfold IsBoundingBox; infer_instance

/-- Every coordinate of `p` is a finite `float`: within `[-FLT_MAX, FLT_MAX]`. -/
def InFloatRange {α : Type} [LinearOrderedField α] (p : Vec3 α) : Prop :=
  (-FLT_MAX ≤ p.x ∧ p.x ≤ FLT_MAX) ∧ (-FLT_MAX ≤ p.y ∧ p.y ≤ FLT_MAX) ∧
  (-FLT_MAX ≤ p.z ∧ p.z ≤ FLT_MAX)

/-- The running min/max fold of both loaders over the points they read,
from the box `box` (lines 63-68 and 94-99). -/
def foldBox {α : Type} [LinearOrderedField α]
    (pts : List (Vec3 α)) (box : Vec3 α × Vec3 α) : Vec3 α × Vec3 α :=
  pts.foldl (fun b p => growBox b p.x p.y p.z) box

/-- The box the globals `brainMin`, `brainMax`, `electrodesMin` and
`electrodesMax` start from (lines 28-31). -/
def emptyBox {α : Type} [LinearOrderedField α] : Vec3 α × Vec3 α :=
  (⟨FLT_MAX, FLT_MAX, FLT_MAX⟩, ⟨-FLT_MAX, -FLT_MAX, -FLT_MAX⟩)

/-- The image of the point `p` under `normalizeElectrodePositions` run in
the state `g`. -/
def registered {α : Type} [LinearOrderedField α] (g : Globals α) (p : Vec3 α) : Vec3 α :=
  registerPoint g
    ⟨g.brainMax.x - g.brainMin.x, g.brainMax.y - g.brainMin.y, g.brainMax.z - g.brainMin.z⟩
    ⟨g.electrodesMax.x - g.electrodesMin.x, g.electrodesMax.y - g.electrodesMin.y,
      g.electrodesMax.z - g.electrodesMin.z⟩ p

/-- The 180-degree rotation about the X axis, `diag(1, -1, -1)`. -/
def flipX {α : Type} [LinearOrderedField α] (p : Vec3 α) : Vec3 α :=
  ⟨p.x, -p.y, -p.z⟩

/-- Component-wise difference of two points. -/
def Vec3.sub {α : Type} [LinearOrderedField α] (p q : Vec3 α) : Vec3 α :=
  ⟨p.x - q.x, p.y - q.y, p.z - q.z⟩

/-- Component-wise sum of two points. -/
def Vec3.add {α : Type} [LinearOrderedField α] (p q : Vec3 α) : Vec3 α :=
  ⟨p.x + q.x, p.y + q.y, p.z + q.z⟩

/-- Component-wise opposite of a point. -/
def Vec3.neg {α : Type} [LinearOrderedField α] (p : Vec3 α) : Vec3 α :=
  ⟨-p.x, -p.y, -p.z⟩

/-- The matrix of `glTranslatef(v.x, v.y, v.z)`. -/
def translateBy {α : Type} [LinearOrderedField α] (v : Vec3 α) : Mat4 α :=
  translation v.x v.y v.z

/-- The matrix of `glRotatef(180.0f, 1.0f, 0.0f, 0.0f)`. -/
def flipMatrix {α : Type} [LinearOrderedField α] (lib : Lib α) : Mat4 α :=
  rotation (lib.cosDeg 180) (lib.sinDeg 180) 1 0 0

/-- The rendered `glutSolidSphere` primitives. -/
def spheres {α : Type} (rs : List (Rendered α)) : List (Rendered α) :=
  rs.filter fun r => r.call.isSphere

/-- The rendered `glDrawElements` primitives. -/
def meshes {α : Type} (rs : List (Rendered α)) : List (Rendered α) :=
  rs.filter fun r => r.call.isMesh

/-- The sphere `drawElectrodes` renders for `entry` under the modelview matrix
`m`: none when its label has no activity value. -/
def electrodeSphere {α : Type} [LinearOrderedField α] (lib : Lib α)
    (activityValues : StdMap α) (m : Mat4 α) (entry : String × Vec3 α) :
    Option (Rendered α) :=
  (mapFind activityValues entry.1).map fun activity =>
    ⟨.solidSphere (1 / 100) 16 16, m * translateBy entry.2, activityToColor lib.sqrt activity⟩

/-- The electrodes whose label is a key of the activity map. -/
def withActivity {α : Type} (g : Globals α) : StdMap (Vec3 α) :=
  g.electrodePositions.filter fun entry => (mapFind g.activityValues entry.1).isSome

/-- The matrix of the user-driven part of the camera: the first three calls
of `display` after `glLoadIdentity` (lines 254-256). -/
def viewMatrix {α : Type} [LinearOrderedField α] (lib : Lib α) (g : Globals α) : Mat4 α :=
  translation 0 0 g.zoom
    * rotation (lib.cosDeg g.rotateX) (lib.sinDeg g.rotateX) 1 0 0
    * rotation (lib.cosDeg g.rotationY) (lib.sinDeg g.rotationY) 0 1 0

/-! ## Concrete states -/

/-- The state of the end-to-end scenario of the specification after the two
position loaders: mesh box `((0,0,0),(10,10,10))`, electrode box
`((0,0,0),(2,2,2))`, electrode `"Fz"` at `(1,1,1)`. -/
def scenarioGlobals {α : Type} [LinearOrderedField α] : Globals α :=
  { (Globals.initial : Globals α) with
    electrodePositions := [("A1", ⟨0, 0, 0⟩), ("Fz", ⟨1, 1, 1⟩), ("Oz", ⟨2, 2, 2⟩)]
    electrodesMin := ⟨0, 0, 0⟩
    electrodesMax := ⟨2, 2, 2⟩
    brainMin := ⟨0, 0, 0⟩
    brainMax := ⟨10, 10, 10⟩
    brainCentre := ⟨5, 5, 5⟩ }

/-- The raw activity file of the end-to-end scenario: maximum 10, `"Fz"` at 5. -/
def scenarioActivity {α : Type} [LinearOrderedField α] : List (String × α) :=
  [("A1", 10), ("Fz", 5)]

/-- A state whose mesh lies in the plane `z = 3`: the mesh box has no extent
on the z axis. -/
def flatMeshGlobals {α : Type} [LinearOrderedField α] : Globals α :=
  { (scenarioGlobals : Globals α) with
    brainMin := ⟨0, 0, 3⟩
    brainMax := ⟨10, 10, 3⟩
    brainCentre := ⟨5, 5, 3⟩ }

/-- A raw activity file with a negative reading. -/
def signedActivity {α : Type} [LinearOrderedField α] : List (String × α) :=
  [("Cz", 10), ("Fz", -5)]

/-- A state in the middle of a left-button drag. -/
def draggingGlobals {α : Type} [LinearOrderedField α] : Globals α :=
  { (scenarioGlobals : Globals α) with
    leftButtonDown := true
    lastMouseX := 10
    lastMouseY := 20 }

/-- The scenario state with an activity file that only mentions `"Fz"`. -/
def partialActivityGlobals {α : Type} [LinearOrderedField α] : Globals α :=
  { (scenarioGlobals : Globals α) with activityValues := [("Fz", 1 / 2)] }

/-- The OpenGL state a frame starts from: identity modelview, empty stack,
white current colour, nothing rendered. -/
def freshGL {α : Type} [LinearOrderedField α] : GLState α :=
  { modelview := 1, stack := [], color := (1, 1, 1), rendered := [] }

/-! # Theorems -/

/-! ## Basic facts -/

theorem stdMin_eq_min {α : Type} [LinearOrderedField α] (a b : α) : stdMin a b = min a b := by
  unfold stdMin
  split_ifs with h
  · exact (min_eq_right h.le).symm
  · exact (min_eq_left (not_lt.mp h)).symm

theorem stdMax_eq_max {α : Type} [LinearOrderedField α] (a b : α) : stdMax a b = max a b := by
  unfold stdMax
  split_ifs with h
  · exact (max_eq_right h.le).symm
  · exact (max_eq_left (not_lt.mp h)).symm

theorem foldl_stdMin_le {α : Type} [LinearOrderedField α] (vals : List α) (a : α) :
    vals.foldl stdMin a ≤ a ∧ ∀ v ∈ vals, vals.foldl stdMin a ≤ v := by
  induction vals generalizing a with
  | nil => simp
  | cons w ws ih =>
    obtain ⟨h1, h2⟩ := ih (stdMin a w)
    have hl : stdMin a w ≤ a := by rw [stdMin_eq_min]; exact min_le_left _ _
    have hr : stdMin a w ≤ w := by rw [stdMin_eq_min]; exact min_le_right _ _
    refine ⟨h1.trans hl, ?_⟩
    intro v hv
    rcases List.mem_cons.mp hv with rfl | hv
    · exact h1.trans hr
    · exact h2 v hv

theorem foldl_stdMin_mem {α : Type} [LinearOrderedField α] (vals : List α) (a : α) :
    vals.foldl stdMin a = a ∨ vals.foldl stdMin a ∈ vals := by
  induction vals generalizing a with
  | nil => simp
  | cons w ws ih =>
    rcases ih (stdMin a w) with h | h
    · simp only [List.foldl_cons, List.mem_cons]
      rw [h, stdMin_eq_min]
      rcases min_choice a w with h' | h'
      · exact Or.inl h'
      · exact Or.inr (Or.inl h')
    · exact Or.inr (List.mem_cons_of_mem _ h)

theorem foldl_stdMax_ge {α : Type} [LinearOrderedField α] (vals : List α) (a : α) :
    a ≤ vals.foldl stdMax a ∧ ∀ v ∈ vals, v ≤ vals.foldl stdMax a := by
  induction vals generalizing a with
  | nil => simp
  | cons w ws ih =>
    obtain ⟨h1, h2⟩ := ih (stdMax a w)
    have hl : a ≤ stdMax a w := by rw [stdMax_eq_max]; exact le_max_left _ _
    have hr : w ≤ stdMax a w := by rw [stdMax_eq_max]; exact le_max_right _ _
    refine ⟨hl.trans h1, ?_⟩
    intro v hv
    rcases List.mem_cons.mp hv with rfl | hv
    · exact hr.trans h1
    · exact h2 v hv

theorem foldl_stdMax_mem {α : Type} [LinearOrderedField α] (vals : List α) (a : α) :
    vals.foldl stdMax a = a ∨ vals.foldl stdMax a ∈ vals := by
  induction vals generalizing a with
  | nil => simp
  | cons w ws ih =>
    rcases ih (stdMax a w) with h | h
    · simp only [List.foldl_cons, List.mem_cons]
      rw [h, stdMax_eq_max]
      rcases max_choice a w with h' | h'
      · exact Or.inl h'
      · exact Or.inr (Or.inl h')
    · exact Or.inr (List.mem_cons_of_mem _ h)

/-- On one axis, the fold started from `(M, -M)` finds the extent of a
non-empty list of values within `[-M, M]`. -/
theorem isExtent_foldl {α : Type} [LinearOrderedField α]
    (vals : List α) (M : α) (hne : vals ≠ [])
    (hr : ∀ v ∈ vals, -M ≤ v ∧ v ≤ M) :
    IsExtent vals (vals.foldl stdMin M) (vals.foldl stdMax (-M)) := by
  obtain ⟨w, hw⟩ := List.exists_mem_of_ne_nil vals hne
  refine ⟨fun v hv => ⟨(foldl_stdMin_le vals M).2 v hv, (foldl_stdMax_ge vals (-M)).2 v hv⟩,
    ?_, ?_⟩
  · rcases foldl_stdMin_mem vals M with h | h
    · have h1 := (foldl_stdMin_le vals M).2 w hw
      rw [h] at h1
      have : w = M := le_antisymm (hr w hw).2 h1
      rw [h, ← this]; exact hw
    · exact h
  · rcases foldl_stdMax_mem vals (-M) with h | h
    · have h1 := (foldl_stdMax_ge vals (-M)).2 w hw
      rw [h] at h1
      have : w = -M := le_antisymm h1 (hr w hw).1
      rw [h, ← this]; exact hw
    · exact h

theorem foldBox_components {α : Type} [LinearOrderedField α]
    (pts : List (Vec3 α)) (box : Vec3 α × Vec3 α) :
    (foldBox pts box).1.x = (pts.map Vec3.x).foldl stdMin box.1.x ∧
    (foldBox pts box).1.y = (pts.map Vec3.y).foldl stdMin box.1.y ∧
    (foldBox pts box).1.z = (pts.map Vec3.z).foldl stdMin box.1.z ∧
    (foldBox pts box).2.x = (pts.map Vec3.x).foldl stdMax box.2.x ∧
    (foldBox pts box).2.y = (pts.map Vec3.y).foldl stdMax box.2.y ∧
    (foldBox pts box).2.z = (pts.map Vec3.z).foldl stdMax box.2.z := by
  induction pts generalizing box with
  | nil => simp [foldBox]
  | cons p ps ih =>
    have h := ih (growBox box p.x p.y p.z)
    simpa [foldBox, growBox] using h

theorem loadElectrodePositions_box {α : Type} [LinearOrderedField α]
    (data : List (String × (α × α × α))) (g : Globals α) :
    ((loadElectrodePositions data g).electrodesMin,
      (loadElectrodePositions data g).electrodesMax)
      = foldBox (data.map fun item => tripleToVec3 item.2) (g.electrodesMin, g.electrodesMax) := by
  induction data generalizing g with
  | nil => simp [loadElectrodePositions, foldBox]
  | cons item rest ih =>
    have h := ih (loadElectrodePositionsStep g item)
    simpa [loadElectrodePositions, foldBox, loadElectrodePositionsStep, tripleToVec3] using h

theorem loadBrainModel_loop {α : Type} [LinearOrderedField α]
    (attrib : List α) (idxs : List Nat) (g : Globals α) :
    ((idxs.foldl (loadBrainModelStep attrib) g).brainMin,
      (idxs.foldl (loadBrainModelStep attrib) g).brainMax)
      = foldBox (idxs.map (corner attrib)) (g.brainMin, g.brainMax) := by
  induction idxs generalizing g with
  | nil => simp [foldBox]
  | cons i rest ih =>
    have h := ih (loadBrainModelStep attrib g i)
    simpa [foldBox, loadBrainModelStep, corner] using h

theorem loadBrainModel_box {α : Type} [LinearOrderedField α]
    (attrib : List α) (shapes : List (List Nat)) (g : Globals α) :
    ((loadBrainModel attrib shapes g).brainMin, (loadBrainModel attrib shapes g).brainMax)
      = foldBox (shapes.flatten.map (corner attrib)) (g.brainMin, g.brainMax) := by
  have h := loadBrainModel_loop attrib shapes.flatten g
  rw [List.foldl_flatten] at h
  simpa [loadBrainModel] using h

theorem isBoundingBox_foldBox {α : Type} [LinearOrderedField α]
    (pts : List (Vec3 α)) (hne : pts ≠ [])
    (hr : ∀ p ∈ pts, InFloatRange p) :
    IsBoundingBox pts (foldBox pts emptyBox).1 (foldBox pts emptyBox).2 := by
  obtain ⟨hx1, hy1, hz1, hx2, hy2, hz2⟩ := foldBox_components pts emptyBox
  unfold IsBoundingBox
  rw [hx1, hy1, hz1, hx2, hy2, hz2]
  refine ⟨isExtent_foldl _ FLT_MAX (by simpa using hne) ?_,
    isExtent_foldl _ FLT_MAX (by simpa using hne) ?_,
    isExtent_foldl _ FLT_MAX (by simpa using hne) ?_⟩
  · intro v hv
    obtain ⟨p, hp, rfl⟩ := List.mem_map.mp hv
    exact (hr p hp).1
  · intro v hv
    obtain ⟨p, hp, rfl⟩ := List.mem_map.mp hv
    exact (hr p hp).2.1
  · intro v hv
    obtain ⟨p, hp, rfl⟩ := List.mem_map.mp hv
    exact (hr p hp).2.2

/-- Claim C3 (bounding box correctness). For every non-empty sequence of
points with coordinates within `[-FLT_MAX, FLT_MAX]`, the running min/max
fold of the loaders started from `(FLT_MAX, ..)` / `(-FLT_MAX, ..)` yields a
box that bounds every point component-wise and whose minimum and maximum are
attained by some point on each axis; and this fold is the box both
`loadElectrodePositions` and `loadBrainModel` leave in the globals. -/
theorem bounding_box_correct {α : Type} [LinearOrderedField α]
    (pts : List (Vec3 α)) (hne : pts ≠ []) (hr : ∀ p ∈ pts, InFloatRange p) :
    IsBoundingBox pts (foldBox pts emptyBox).1 (foldBox pts emptyBox).2 ∧
    (∀ data : List (String × (α × α × α)),
      (data.map fun item => tripleToVec3 item.2) = pts →
      ((loadElectrodePositions data Globals.initial).electrodesMin,
        (loadElectrodePositions data Globals.initial).electrodesMax) = foldBox pts emptyBox) ∧
    (∀ (attrib : List α) (shapes : List (List Nat)),
      shapes.flatten.map (corner attrib) = pts →
      ((loadBrainModel attrib shapes Globals.initial).brainMin,
        (loadBrainModel attrib shapes Globals.initial).brainMax) = foldBox pts emptyBox) := by
  refine ⟨isBoundingBox_foldBox pts hne hr, ?_, ?_⟩
  · intro data hd
    rw [loadElectrodePositions_box, hd]; rfl
  · intro attrib shapes hs
    rw [loadBrainModel_box, hs]; rfl

/-- The bounding box theorem at two concrete points. -/
theorem bounding_box_correct_witness :
    ([⟨0, 3, -1⟩, ⟨2, 1, 5⟩] : List (Vec3 ℚ)) ≠ [] ∧
    (foldBox ([⟨0, 3, -1⟩, ⟨2, 1, 5⟩] : List (Vec3 ℚ)) emptyBox).1 = ⟨0, 1, -1⟩ ∧
    (foldBox ([⟨0, 3, -1⟩, ⟨2, 1, 5⟩] : List (Vec3 ℚ)) emptyBox).2 = ⟨2, 3, 5⟩ ∧
    IsBoundingBox ([⟨0, 3, -1⟩, ⟨2, 1, 5⟩] : List (Vec3 ℚ))
      (foldBox [⟨0, 3, -1⟩, ⟨2, 1, 5⟩] emptyBox).1
      (foldBox [⟨0, 3, -1⟩, ⟨2, 1, 5⟩] emptyBox).2 :=
  ⟨by simp,
   by norm_num [foldBox, growBox, emptyBox, stdMin, FLT_MAX],
   by norm_num [foldBox, growBox, emptyBox, stdMax, FLT_MAX],
   (bounding_box_correct [⟨0, 3, -1⟩, ⟨2, 1, 5⟩] (by simp)
     (by norm_num [InFloatRange, FLT_MAX])).1⟩

/-! ## Registration -/

theorem normalizeElectrodePositions_map {α : Type} [LinearOrderedField α] (g : Globals α) :
    (normalizeElectrodePositions g).electrodePositions
      = g.electrodePositions.map fun entry => (entry.1, registered g entry.2) := rfl

/-- On one axis, the rescaling of `normalizeElectrodePositions` maps the
extent `[lo, hi]` of the values onto `[tlo, thi]`. -/
theorem isExtent_rescale {α : Type} [LinearOrderedField α] (vals : List α) (lo hi tlo thi : α)
    (h : IsExtent vals lo hi) (hlt : lo < hi) (hle : tlo ≤ thi) :
    IsExtent (vals.map fun v => tlo + ((v - lo) / (hi - lo)) * (thi - tlo)) tlo thi := by
  obtain ⟨hb, hlo, hhi⟩ := h
  have hpos : 0 < hi - lo := sub_pos.mpr hlt
  have hsz : 0 ≤ thi - tlo := sub_nonneg.mpr hle
  refine ⟨?_, ?_, ?_⟩
  · intro w hw
    obtain ⟨v, hv, rfl⟩ := List.mem_map.mp hw
    obtain ⟨h1, h2⟩ := hb v hv
    have hr0 : 0 ≤ (v - lo) / (hi - lo) := div_nonneg (sub_nonneg.mpr h1) hpos.le
    have hr1 : (v - lo) / (hi - lo) ≤ 1 := by
      rw [div_le_one hpos]; linarith
    constructor
    · have := mul_nonneg hr0 hsz
      linarith
    · have := mul_le_mul_of_nonneg_right hr1 hsz
      linarith
  · refine List.mem_map.mpr ⟨lo, hlo, ?_⟩
    simp
  · refine List.mem_map.mpr ⟨hi, hhi, ?_⟩
    rw [div_self hpos.ne']; ring

theorem isExtent_unique {α : Type} [LinearOrderedField α] (vals : List α) (lo hi lo' hi' : α)
    (h : IsExtent vals lo hi) (h' : IsExtent vals lo' hi') : lo = lo' ∧ hi = hi' :=
  ⟨le_antisymm (h.1 lo' h'.2.1).1 (h'.1 lo h.2.1).1,
   le_antisymm (h'.1 hi h.2.2).2 (h.1 hi' h'.2.2).2⟩

theorem isBoundingBox_unique {α : Type} [LinearOrderedField α]
    (pts : List (Vec3 α)) (lo hi lo' hi' : Vec3 α)
    (h : IsBoundingBox pts lo hi) (h' : IsBoundingBox pts lo' hi') : lo = lo' ∧ hi = hi' := by
  obtain ⟨hx, hy, hz⟩ := h
  obtain ⟨hx', hy', hz'⟩ := h'
  obtain ⟨x1, x2⟩ := isExtent_unique _ _ _ _ _ hx hx'
  obtain ⟨y1, y2⟩ := isExtent_unique _ _ _ _ _ hy hy'
  obtain ⟨z1, z2⟩ := isExtent_unique _ _ _ _ _ hz hz'
  cases lo; cases hi; cases lo'; cases hi'
  simp_all

theorem isBoundingBox_ne_nil {α : Type} [LinearOrderedField α]
    (pts : List (Vec3 α)) (lo hi : Vec3 α)
    (h : IsBoundingBox pts lo hi) : pts ≠ [] := by
  rintro rfl
  simpa using h.1.2.1

theorem isBoundingBox_inFloatRange {α : Type} [LinearOrderedField α]
    (pts : List (Vec3 α)) (lo hi : Vec3 α)
    (h : IsBoundingBox pts lo hi) (hlo : InFloatRange lo) (hhi : InFloatRange hi) :
    ∀ p ∈ pts, InFloatRange p := by
  intro p hp
  obtain ⟨hx, hy, hz⟩ := h
  have ax := hx.1 p.x (List.mem_map_of_mem _ hp)
  have ay := hy.1 p.y (List.mem_map_of_mem _ hp)
  have az := hz.1 p.z (List.mem_map_of_mem _ hp)
  exact ⟨⟨hlo.1.1.trans ax.1, ax.2.trans hhi.1.2⟩,
    ⟨hlo.2.1.1.trans ay.1, ay.2.trans hhi.2.1.2⟩,
    ⟨hlo.2.2.1.trans az.1, az.2.trans hhi.2.2.2⟩⟩

theorem isBoundingBox_registered {α : Type} [LinearOrderedField α] (g : Globals α)
    (hbox : IsBoundingBox (points g.electrodePositions) g.electrodesMin g.electrodesMax)
    (hx : g.electrodesMin.x < g.electrodesMax.x) (hy : g.electrodesMin.y < g.electrodesMax.y)
    (hz : g.electrodesMin.z < g.electrodesMax.z)
    (tx : g.brainMin.x ≤ g.brainMax.x) (ty : g.brainMin.y ≤ g.brainMax.y)
    (tz : g.brainMin.z ≤ g.brainMax.z) :
    IsBoundingBox (points (normalizeElectrodePositions g).electrodePositions)
      g.brainMin g.brainMax := by
  obtain ⟨ex, ey, ez⟩ := hbox
  have rx := isExtent_rescale _ _ _ _ _ ex hx tx
  have ry := isExtent_rescale _ _ _ _ _ ey hy ty
  have rz := isExtent_rescale _ _ _ _ _ ez hz tz
  refine ⟨?_, ?_, ?_⟩
  · simpa [points, normalizeElectrodePositions, registerPoint, List.map_map,
      Function.comp_def] using rx
  · simpa [points, normalizeElectrodePositions, registerPoint, List.map_map,
      Function.comp_def] using ry
  · simpa [points, normalizeElectrodePositions, registerPoint, List.map_map,
      Function.comp_def] using rz

/-- Claim C1 (registration exactness). If `(electrodesMin, electrodesMax)`
is the bounding box of the electrode set (which makes the set non-empty), with
`electrodesMax > electrodesMin` on every axis, and `brainMin ≤ brainMax` on
every axis, then after `normalizeElectrodePositions` the bounding box of the
registered points is `(brainMin, brainMax)`; when the mesh box is made of
finite floats, the loaders' fold recomputes exactly that box. -/
theorem registration_exact {α : Type} [LinearOrderedField α] (g : Globals α)
    (hbox : IsBoundingBox (points g.electrodePositions) g.electrodesMin g.electrodesMax)
    (hx : g.electrodesMin.x < g.electrodesMax.x) (hy : g.electrodesMin.y < g.electrodesMax.y)
    (hz : g.electrodesMin.z < g.electrodesMax.z)
    (tx : g.brainMin.x ≤ g.brainMax.x) (ty : g.brainMin.y ≤ g.brainMax.y)
    (tz : g.brainMin.z ≤ g.brainMax.z) :
    IsBoundingBox (points (normalizeElectrodePositions g).electrodePositions)
      g.brainMin g.brainMax ∧
    (InFloatRange g.brainMin → InFloatRange g.brainMax →
      foldBox (points (normalizeElectrodePositions g).electrodePositions) emptyBox
        = (g.brainMin, g.brainMax)) := by
  have hreg := isBoundingBox_registered g hbox hx hy hz tx ty tz
  refine ⟨hreg, fun hlo hhi => ?_⟩
  have hfold := isBoundingBox_foldBox _ (isBoundingBox_ne_nil _ _ _ hreg)
    (isBoundingBox_inFloatRange _ _ _ hreg hlo hhi)
  obtain ⟨h1, h2⟩ := isBoundingBox_unique _ _ _ _ _ hfold hreg
  exact Prod.ext h1 h2

/-- The registration theorem at the scenario state. -/
theorem registration_exact_witness :
    IsBoundingBox (points (scenarioGlobals : Globals ℚ).electrodePositions)
      (scenarioGlobals : Globals ℚ).electrodesMin
      (scenarioGlobals : Globals ℚ).electrodesMax ∧
    IsBoundingBox
      (points (normalizeElectrodePositions (scenarioGlobals : Globals ℚ)).electrodePositions)
      (scenarioGlobals : Globals ℚ).brainMin (scenarioGlobals : Globals ℚ).brainMax :=
  ⟨by norm_num [IsBoundingBox, IsExtent, points, scenarioGlobals],
   (registration_exact (scenarioGlobals : Globals ℚ)
      (by norm_num [IsBoundingBox, IsExtent, points, scenarioGlobals])
      (by norm_num [scenarioGlobals]) (by norm_num [scenarioGlobals])
      (by norm_num [scenarioGlobals]) (by norm_num [scenarioGlobals])
      (by norm_num [scenarioGlobals]) (by norm_num [scenarioGlobals])).1⟩

/-- Claim C4 (registration linearity), amended: for a source box and a
target box that both have non-zero extent on every axis, the image `p'` of
every point `p` under `normalizeElectrodePositions` satisfies
`(p'.a - to.min.a) / (to.max.a - to.min.a)
  = (p.a - from.min.a) / (from.max.a - from.min.a)` on every axis `a`, and each
output axis depends only on the same input axis. -/
theorem registration_linear {α : Type} [LinearOrderedField α] (g : Globals α)
    (fx : g.electrodesMax.x - g.electrodesMin.x ≠ 0)
    (fy : g.electrodesMax.y - g.electrodesMin.y ≠ 0)
    (fz : g.electrodesMax.z - g.electrodesMin.z ≠ 0)
    (sx : g.brainMax.x - g.brainMin.x ≠ 0)
    (sy : g.brainMax.y - g.brainMin.y ≠ 0)
    (sz : g.brainMax.z - g.brainMin.z ≠ 0) :
    (normalizeElectrodePositions g).electrodePositions
      = g.electrodePositions.map (fun entry => (entry.1, registered g entry.2)) ∧
    (∀ p : Vec3 α,
      ((registered g p).x - g.brainMin.x) / (g.brainMax.x - g.brainMin.x)
        = (p.x - g.electrodesMin.x) / (g.electrodesMax.x - g.electrodesMin.x) ∧
      ((registered g p).y - g.brainMin.y) / (g.brainMax.y - g.brainMin.y)
        = (p.y - g.electrodesMin.y) / (g.electrodesMax.y - g.electrodesMin.y) ∧
      ((registered g p).z - g.brainMin.z) / (g.brainMax.z - g.brainMin.z)
        = (p.z - g.electrodesMin.z) / (g.electrodesMax.z - g.electrodesMin.z)) ∧
    (∀ p q : Vec3 α,
      (p.x = q.x → (registered g p).x = (registered g q).x) ∧
      (p.y = q.y → (registered g p).y = (registered g q).y) ∧
      (p.z = q.z → (registered g p).z = (registered g q).z)) := by
  refine ⟨rfl, fun p => ⟨?_, ?_, ?_⟩, fun p q => ⟨?_, ?_, ?_⟩⟩
  · simp only [registered, registerPoint]; field_simp; ring
  · simp only [registered, registerPoint]; field_simp; ring
  · simp only [registered, registerPoint]; field_simp; ring
  · intro h; simp only [registered, registerPoint, h]
  · intro h; simp only [registered, registerPoint, h]
  · intro h; simp only [registered, registerPoint, h]

/-- The linearity theorem at the scenario state, for the point `(1,1,1)`. -/
theorem registration_linear_witness :
    ((registered (scenarioGlobals : Globals ℚ) ⟨1, 1, 1⟩).x - 0) / (10 - 0)
      = (1 - 0) / (2 - 0) :=
  by simpa [scenarioGlobals] using
    ((registration_linear (scenarioGlobals : Globals ℚ)
      (by norm_num [scenarioGlobals]) (by norm_num [scenarioGlobals])
      (by norm_num [scenarioGlobals]) (by norm_num [scenarioGlobals])
      (by norm_num [scenarioGlobals]) (by norm_num [scenarioGlobals])).2.1 ⟨1, 1, 1⟩).1

/-- Claim C4 fails as stated, for "every target box": with a mesh lying in
the plane `z = 3` (target extent 0 on z) and the electrode box
`((0,0,0),(2,2,2))`, the electrode at `(1,1,1)` is registered to `z = 3`, so
the target-side ratio is `0 / 0` while the source-side ratio is `1 / 2`. -/
theorem registration_linear_counterexample :
    (flatMeshGlobals : Globals ℚ).electrodesMax.x
      - (flatMeshGlobals : Globals ℚ).electrodesMin.x ≠ 0 ∧
    (flatMeshGlobals : Globals ℚ).electrodesMax.y
      - (flatMeshGlobals : Globals ℚ).electrodesMin.y ≠ 0 ∧
    (flatMeshGlobals : Globals ℚ).electrodesMax.z
      - (flatMeshGlobals : Globals ℚ).electrodesMin.z ≠ 0 ∧
    (⟨1, 1, 1⟩ : Vec3 ℚ) ∈ points (flatMeshGlobals : Globals ℚ).electrodePositions ∧
    (normalizeElectrodePositions (flatMeshGlobals : Globals ℚ)).electrodePositions
      = [("A1", ⟨0, 0, 3⟩), ("Fz", ⟨5, 5, 3⟩), ("Oz", ⟨10, 10, 3⟩)] ∧
    ((registered (flatMeshGlobals : Globals ℚ) ⟨1, 1, 1⟩).z
          - (flatMeshGlobals : Globals ℚ).brainMin.z)
        / ((flatMeshGlobals : Globals ℚ).brainMax.z - (flatMeshGlobals : Globals ℚ).brainMin.z)
      ≠ (1 - (flatMeshGlobals : Globals ℚ).electrodesMin.z)
        / ((flatMeshGlobals : Globals ℚ).electrodesMax.z
          - (flatMeshGlobals : Globals ℚ).electrodesMin.z) := by
  refine ⟨?_, ?_, ?_, ?_, ?_, ?_⟩ <;>
    norm_num [flatMeshGlobals, scenarioGlobals, points, normalizeElectrodePositions,
      registered, registerPoint]

/-! ## Activity values -/

theorem mem_mapAssign {β : Type} (m : StdMap β) (k : String) (v : β) (e : String × β)
    (he : e ∈ mapAssign m k v) : e = (k, v) ∨ e ∈ m := by
  induction m with
  | nil => simpa [mapAssign] using he
  | cons hd tl ih =>
    obtain ⟨k', v'⟩ := hd
    unfold mapAssign at he
    split_ifs at he with h1 h2
    · rcases List.mem_cons.mp he with h | h
      · exact Or.inl h
      · exact Or.inr h
    · rcases List.mem_cons.mp he with h | h
      · exact Or.inl h
      · exact Or.inr (List.mem_cons_of_mem _ h)
    · rcases List.mem_cons.mp he with h | h
      · exact Or.inr (h ▸ List.mem_cons_self _ _)
      · rcases ih h with h | h
        · exact Or.inl h
        · exact Or.inr (List.mem_cons_of_mem _ h)

theorem mapFind_map {β γ : Type} (f : β → γ) (m : StdMap β) (k : String) :
    mapFind (m.map fun entry => (entry.1, f entry.2)) k = (mapFind m k).map f := by
  induction m with
  | nil => rfl
  | cons hd tl ih =>
    obtain ⟨k', v'⟩ := hd
    simp only [List.map_cons, mapFind]
    split_ifs with h
    · rfl
    · exact ih

theorem mem_of_mapFind {β : Type} (m : StdMap β) (k : String) (v : β)
    (h : mapFind m k = some v) : (k, v) ∈ m := by
  induction m with
  | nil => simp [mapFind] at h
  | cons hd tl ih =>
    obtain ⟨k', v'⟩ := hd
    unfold mapFind at h
    split_ifs at h with hk
    · simp only [Option.some.injEq] at h
      subst hk; subst h
      exact List.mem_cons_self _ _
    · exact List.mem_cons_of_mem _ (ih h)

/-- The first loop of `loadActivityValues`, from any accumulator: every
stored entry is an old entry or an item of the file, and `maxActivity`
bounds the old maximum and every value of the file. -/
theorem loadActivityValues_loop {α : Type} [LinearOrderedField α]
    (data : List (String × α)) (m : StdMap α) (a : α) :
    (∀ e ∈ (data.foldl
        (fun acc item => (mapAssign acc.1 item.1 item.2, stdMax acc.2 item.2)) (m, a)).1,
      e ∈ m ∨ e ∈ data) ∧
    a ≤ (data.foldl
        (fun acc item => (mapAssign acc.1 item.1 item.2, stdMax acc.2 item.2)) (m, a)).2 ∧
    (∀ e ∈ data, e.2 ≤ (data.foldl
        (fun acc item => (mapAssign acc.1 item.1 item.2, stdMax acc.2 item.2)) (m, a)).2) := by
  induction data generalizing m a with
  | nil => simp
  | cons item rest ih =>
    obtain ⟨h1, h2, h3⟩ := ih (mapAssign m item.1 item.2) (stdMax a item.2)
    have ha : a ≤ stdMax a item.2 := by rw [stdMax_eq_max]; exact le_max_left _ _
    have hi : item.2 ≤ stdMax a item.2 := by rw [stdMax_eq_max]; exact le_max_right _ _
    refine ⟨?_, ha.trans h2, ?_⟩
    · intro e he
      rcases h1 e he with h | h
      · rcases mem_mapAssign _ _ _ _ h with h | h
        · exact Or.inr (h ▸ List.mem_cons_self _ _)
        · exact Or.inl h
      · exact Or.inr (List.mem_cons_of_mem _ h)
    · intro e he
      rcases List.mem_cons.mp he with h | h
      · exact h ▸ hi.trans h2
      · exact h3 e h

/-- What `loadActivityValues` guarantees when the maximum is positive: every
stored value is at most 1, a stored value is at least 0 when no raw value is
negative, and a label whose stored raw value is the maximum ends at 1. -/
theorem loadActivityValues_range {α : Type} [LinearOrderedField α]
    (data : List (String × α)) (g : Globals α)
    (hempty : g.activityValues = []) (hpos : 0 < (loadActivityValues data g).2) :
    (∀ e ∈ (loadActivityValues data g).1.activityValues, e.2 ≤ 1) ∧
    ((∀ item ∈ data, 0 ≤ item.2) →
      ∀ e ∈ (loadActivityValues data g).1.activityValues, 0 ≤ e.2) ∧
    (∀ label, mapFind (loadActivityValuesRaw data g).1 label
        = some (loadActivityValues data g).2 →
      mapFind (loadActivityValues data g).1.activityValues label = some 1) := by
  have hloop := loadActivityValues_loop data g.activityValues 0
  have hM : (loadActivityValues data g).2 = (loadActivityValuesRaw data g).2 := rfl
  rw [hM] at hpos
  have hval : (loadActivityValues data g).1.activityValues
      = (loadActivityValuesRaw data g).1.map
          fun entry => (entry.1, entry.2 / (loadActivityValuesRaw data g).2) := by
    simp only [loadActivityValues]
    rw [if_pos hpos]
  obtain ⟨h1, -, h3⟩ := hloop
  refine ⟨?_, ?_, ?_⟩
  · intro e he
    rw [hval] at he
    obtain ⟨e', he', rfl⟩ := List.mem_map.mp he
    rcases h1 e' he' with h | h
    · rw [hempty] at h; simp at h
    · exact (div_le_one hpos).mpr (h3 e' h)
  · intro hnn e he
    rw [hval] at he
    obtain ⟨e', he', rfl⟩ := List.mem_map.mp he
    rcases h1 e' he' with h | h
    · rw [hempty] at h; simp at h
    · exact div_nonneg (hnn e' h) hpos.le
  · intro label hl
    rw [hval, mapFind_map (fun v => v / (loadActivityValuesRaw data g).2), hl, hM]
    simp [div_self hpos.ne']

/-- Claim C2 (activity normalization range) against the code: on the file
`{"Cz": 10, "Fz": -5}` the maximum is `10 > 0` and `loadActivityValues`
stores `"Fz"` as `-1/2`, which is not in `[0, 1]`. -/
theorem activity_range_violated :
    (loadActivityValues (signedActivity : List (String × ℚ)) Globals.initial).2 = 10 ∧
    (loadActivityValues (signedActivity : List (String × ℚ)) Globals.initial).1.activityValues
      = [("Cz", 1), ("Fz", -1 / 2)] ∧
    mapFind
        (loadActivityValues (signedActivity : List (String × ℚ)) Globals.initial).1.activityValues
        "Fz" = some (-1 / 2) ∧
    ¬ (0 ≤ (-1 / 2 : ℚ)) := by
  have hlt : ¬ ("Fz" : String) < "Cz" := by rw [String.lt_iff_toList_lt]; decide
  have hne : ¬ ("Fz" : String) = "Cz" := by decide
  refine ⟨?_, ?_, ?_, ?_⟩ <;>
    norm_num [loadActivityValues, loadActivityValuesRaw, signedActivity, Globals.initial,
      mapAssign, mapFind, stdMax, hlt, hne]

/-! ## From the position loader to the registration hypothesis -/

theorem self_mem_mapAssign {β : Type} (m : StdMap β) (k : String) (v : β) :
    (k, v) ∈ mapAssign m k v := by
  induction m with
  | nil => simp [mapAssign]
  | cons hd tl ih =>
    obtain ⟨k', v'⟩ := hd
    unfold mapAssign
    split_ifs with h1 h2
    · exact List.mem_cons_self _ _
    · exact List.mem_cons_self _ _
    · exact List.mem_cons_of_mem _ ih

theorem mem_mapAssign_of_mem {β : Type} (m : StdMap β) (k : String) (v : β)
    (e : String × β) (he : e ∈ m) (hk : e.1 ≠ k) : e ∈ mapAssign m k v := by
  induction m with
  | nil => simp at he
  | cons hd tl ih =>
    obtain ⟨k', v'⟩ := hd
    unfold mapAssign
    split_ifs with h1 h2
    · exact List.mem_cons_of_mem _ he
    · rcases List.mem_cons.mp he with h | h
      · exact absurd (by rw [h, h2]) hk
      · exact List.mem_cons_of_mem _ h
    · rcases List.mem_cons.mp he with h | h
      · exact h ▸ List.mem_cons_self _ _
      · exact List.mem_cons_of_mem _ (ih h)

/-- With pairwise distinct labels in the file, the map built by
`loadElectrodePositions` holds exactly the old entries and the points read. -/
theorem mem_loadElectrodePositions {α : Type} [LinearOrderedField α]
    (data : List (String × (α × α × α))) (g : Globals α)
    (hnd : (data.map Prod.fst).Nodup)
    (hnew : ∀ item ∈ data, ∀ e ∈ g.electrodePositions, e.1 ≠ item.1)
    (e : String × Vec3 α) :
    e ∈ (loadElectrodePositions data g).electrodePositions ↔
      e ∈ g.electrodePositions ∨ ∃ item ∈ data, e = (item.1, tripleToVec3 item.2) := by
  induction data generalizing g with
  | nil => simp [loadElectrodePositions]
  | cons item rest ih =>
    rw [List.map_cons, List.nodup_cons] at hnd
    obtain ⟨hfresh, hnd⟩ := hnd
    have hstep : (loadElectrodePositionsStep g item).electrodePositions
        = mapAssign g.electrodePositions item.1 (tripleToVec3 item.2) := rfl
    have hnew' : ∀ it ∈ rest, ∀ e' ∈ (loadElectrodePositionsStep g item).electrodePositions,
        e'.1 ≠ it.1 := by
      intro it hit e' he'
      rw [hstep] at he'
      rcases mem_mapAssign _ _ _ _ he' with h | h
      · rw [h]
        intro hk
        exact hfresh (List.mem_map.mpr ⟨it, hit, hk.symm⟩)
      · exact hnew it (List.mem_cons_of_mem _ hit) e' h
    have h := ih (loadElectrodePositionsStep g item) hnd hnew'
    have hfold : loadElectrodePositions (item :: rest) g
        = loadElectrodePositions rest (loadElectrodePositionsStep g item) := rfl
    rw [hfold, h, hstep]
    constructor
    · rintro (h1 | ⟨it, hit, rfl⟩)
      · rcases mem_mapAssign _ _ _ _ h1 with h2 | h2
        · exact Or.inr ⟨item, List.mem_cons_self _ _, h2⟩
        · exact Or.inl h2
      · exact Or.inr ⟨it, List.mem_cons_of_mem _ hit, rfl⟩
    · rintro (h1 | ⟨it, hit, rfl⟩)
      · exact Or.inl (mem_mapAssign_of_mem _ _ _ _ h1
          (hnew item (List.mem_cons_self _ _) e h1))
      · rcases List.mem_cons.mp hit with h2 | h2
        · exact Or.inl (h2 ▸ self_mem_mapAssign _ _ _)
        · exact Or.inr ⟨it, h2, rfl⟩

theorem isBoundingBox_congr {α : Type} [LinearOrderedField α] (pts pts' : List (Vec3 α))
    (lo hi : Vec3 α) (hmem : ∀ p, p ∈ pts ↔ p ∈ pts') (h : IsBoundingBox pts lo hi) :
    IsBoundingBox pts' lo hi := by
  have hx : ∀ (f : Vec3 α → α) (v : α), v ∈ pts.map f ↔ v ∈ pts'.map f := by
    intro f v
    simp only [List.mem_map]
    exact ⟨fun ⟨p, hp, e⟩ => ⟨p, (hmem p).mp hp, e⟩,
      fun ⟨p, hp, e⟩ => ⟨p, (hmem p).mpr hp, e⟩⟩
  obtain ⟨⟨a1, a2, a3⟩, ⟨b1, b2, b3⟩, ⟨c1, c2, c3⟩⟩ := h
  exact ⟨⟨fun v hv => a1 v ((hx _ v).mpr hv), (hx _ _).mp a2, (hx _ _).mp a3⟩,
    ⟨fun v hv => b1 v ((hx _ v).mpr hv), (hx _ _).mp b2, (hx _ _).mp b3⟩,
    ⟨fun v hv => c1 v ((hx _ v).mpr hv), (hx _ _).mp c2, (hx _ _).mp c3⟩⟩

/-- The electrode set `loadElectrodePositions` builds from a non-empty file
with pairwise distinct labels and finite coordinates has
`(electrodesMin, electrodesMax)` as its bounding box. -/
theorem isBoundingBox_loadElectrodePositions {α : Type} [LinearOrderedField α]
    (data : List (String × (α × α × α))) (hne : data ≠ [])
    (hnd : (data.map Prod.fst).Nodup)
    (hr : ∀ item ∈ data, InFloatRange (tripleToVec3 item.2)) :
    IsBoundingBox (points (loadElectrodePositions data Globals.initial).electrodePositions)
      (loadElectrodePositions data Globals.initial).electrodesMin
      (loadElectrodePositions data Globals.initial).electrodesMax := by
  have hbox := loadElectrodePositions_box data (Globals.initial : Globals α)
  have hfold := isBoundingBox_foldBox (data.map fun item => tripleToVec3 item.2)
    (by simpa using hne)
    (by
      intro p hp
      obtain ⟨item, hi, rfl⟩ := List.mem_map.mp hp
      exact hr item hi)
  have h1 : (loadElectrodePositions data Globals.initial).electrodesMin
      = (foldBox (data.map fun item => tripleToVec3 item.2) emptyBox).1 :=
    congrArg Prod.fst hbox
  have h2 : (loadElectrodePositions data Globals.initial).electrodesMax
      = (foldBox (data.map fun item => tripleToVec3 item.2) emptyBox).2 :=
    congrArg Prod.snd hbox
  rw [h1, h2]
  refine isBoundingBox_congr _ _ _ _ ?_ hfold
  intro p
  simp only [points, List.mem_map]
  constructor
  · rintro ⟨item, hi, rfl⟩
    refine ⟨(item.1, tripleToVec3 item.2), ?_, rfl⟩
    rw [mem_loadElectrodePositions data _ hnd (by simp [Globals.initial])]
    exact Or.inr ⟨item, hi, rfl⟩
  · rintro ⟨e, he, rfl⟩
    rw [mem_loadElectrodePositions data _ hnd (by simp [Globals.initial])] at he
    rcases he with h | ⟨item, hi, rfl⟩
    · simp [Globals.initial] at h
    · exact ⟨item, hi, rfl⟩

/-! ## Colour mapping -/

theorem stdClamp_eq (v : ℝ) : stdClamp v 0 1 = max 0 (min v 1) := by
  unfold stdClamp
  split_ifs with h1 h2
  · rw [max_eq_left]; exact (min_le_left _ _).trans h1.le
  · rw [min_eq_right h2.le, max_eq_right zero_le_one]
  · rw [min_eq_left (not_lt.mp h2), max_eq_right (not_lt.mp h1)]

/-- A branch-free form of `activityToColor` over the reals. -/
theorem activityToColor_eq (v : ℝ) :
    activityToColor Real.sqrt v =
      (max 0 (2 * Real.sqrt (max 0 (min v 1)) - 1),
       min (2 * Real.sqrt (max 0 (min v 1))) (2 - 2 * Real.sqrt (max 0 (min v 1))),
       max (1 - 2 * Real.sqrt (max 0 (min v 1))) 0) := by
  unfold activityToColor
  simp only [stdClamp_eq]
  generalize Real.sqrt (max 0 (min v 1)) = s
  split_ifs with h
  · simp only [colorLow]
    rw [max_eq_left (by linarith), min_eq_left (by linarith), max_eq_left (by linarith)]
    ring_nf
  · have h' := not_lt.mp h
    simp only [colorHigh]
    rw [max_eq_right (by linarith), min_eq_right (by linarith), max_eq_right (by linarith)]
    ring_nf

theorem continuous_activityToColor :
    Continuous (fun v : ℝ => activityToColor Real.sqrt v) := by
  have h : (fun v : ℝ => activityToColor Real.sqrt v) = fun v =>
      (max 0 (2 * Real.sqrt (max 0 (min v 1)) - 1),
       min (2 * Real.sqrt (max 0 (min v 1))) (2 - 2 * Real.sqrt (max 0 (min v 1))),
       max (1 - 2 * Real.sqrt (max 0 (min v 1))) 0) := funext activityToColor_eq
  rw [h]
  have hs : Continuous fun v : ℝ => Real.sqrt (max 0 (min v 1)) :=
    Real.continuous_sqrt.comp (continuous_const.max (continuous_id.min continuous_const))
  have h2 : Continuous fun v : ℝ => 2 * Real.sqrt (max 0 (min v 1)) := continuous_const.mul hs
  exact (continuous_const.max (h2.sub continuous_const)).prod_mk
    ((h2.min (continuous_const.sub h2)).prod_mk ((continuous_const.sub h2).max continuous_const))

theorem sqrt_quarter : Real.sqrt (1 / 4) = 1 / 2 := by
  rw [show (1 / 4 : ℝ) = (1 / 2) ^ 2 by norm_num]
  exact Real.sqrt_sq (by norm_num)

theorem activityToColor_nonpos (v : ℝ) (h : v ≤ 0) :
    activityToColor Real.sqrt v = (0, 0, 1) := by
  have hc : stdClamp v 0 1 = 0 := by
    unfold stdClamp
    split_ifs with h1 h2
    · rfl
    · linarith
    · linarith
  simp [activityToColor, hc, colorLow]

theorem activityToColor_one_le (v : ℝ) (h : 1 ≤ v) :
    activityToColor Real.sqrt v = (1, 0, 0) := by
  have hc : stdClamp v 0 1 = 1 := by
    unfold stdClamp
    split_ifs with h1 h2
    · linarith
    · rfl
    · linarith
  have h2 : ¬ ((1 : ℝ) < 1 / 2) := by norm_num
  simp only [activityToColor, hc, Real.sqrt_one, if_neg h2, colorHigh]
  norm_num

/-- Claim C5 (colorizer boundary and clamp). For every `v ≤ 0`,
`activityToColor v = (0, 0, 1) = activityToColor 0`; for every `v ≥ 1`,
`activityToColor v = (1, 0, 0) = activityToColor 1`; in particular the
colours of `-5` and `0` agree, and so do those of `5` and `1`. -/
theorem colorizer_boundary_and_clamp (v : ℝ) :
    (v ≤ 0 → activityToColor Real.sqrt v = (0, 0, 1)) ∧
    (1 ≤ v → activityToColor Real.sqrt v = (1, 0, 0)) ∧
    activityToColor Real.sqrt 0 = (0, 0, 1) ∧
    activityToColor Real.sqrt 1 = (1, 0, 0) ∧
    activityToColor Real.sqrt (-5) = activityToColor Real.sqrt 0 ∧
    activityToColor Real.sqrt 5 = activityToColor Real.sqrt 1 := by
  refine ⟨activityToColor_nonpos v, activityToColor_one_le v,
    activityToColor_nonpos 0 le_rfl, activityToColor_one_le 1 le_rfl, ?_, ?_⟩
  · rw [activityToColor_nonpos (-5) (by norm_num), activityToColor_nonpos 0 le_rfl]
  · rw [activityToColor_one_le 5 (by norm_num), activityToColor_one_le 1 le_rfl]

/-- The clamp theorem at `-5` and at `5`. -/
theorem colorizer_boundary_and_clamp_witness :
    activityToColor Real.sqrt (-5) = (0, 0, 1) ∧ activityToColor Real.sqrt 5 = (1, 0, 0) :=
  ⟨(colorizer_boundary_and_clamp (-5)).1 (by norm_num),
   (colorizer_boundary_and_clamp 5).2.1 (by norm_num)⟩

/-- Claim C7 (colorizer continuity). As a function from the reals to RGB
triples `activityToColor` is continuous, and at the branch threshold
(`sqrt v = 1/2`, that is `v = 1/4`) the formulas of the two branches agree:
both give `(0, 1, 0)`. -/
theorem colorizer_continuous :
    Continuous (fun v : ℝ => activityToColor Real.sqrt v) ∧
    Real.sqrt (stdClamp (1 / 4) 0 1) = 1 / 2 ∧
    colorLow (1 / 2 : ℝ) = (0, 1, 0) ∧
    colorHigh (1 / 2 : ℝ) = (0, 1, 0) ∧
    activityToColor Real.sqrt (1 / 4) = (0, 1, 0) := by
  have hc : stdClamp (1 / 4 : ℝ) 0 1 = 1 / 4 := by
    norm_num [stdClamp]
  refine ⟨continuous_activityToColor, ?_, ?_, ?_, ?_⟩
  · rw [hc, sqrt_quarter]
  · norm_num [colorLow]
  · norm_num [colorHigh]
  · simp only [activityToColor, hc, sqrt_quarter, lt_irrefl, if_false]
    norm_num [colorHigh]

/-! ## Pointer input -/

/-- Claim C8 (pointer-move update). With `dx = x - lastMouseX` and
`dy = y - lastMouseY`: `motion` sets the last position to `(x, y)`, keeps the
button flags, adds `dy * 0.3` to `rotateX` and `dx * 0.3` to `rotationY`
exactly when the left button is down, adds `dy * 0.01` to `zoom` exactly when
the right button is down, and changes nothing else. -/
theorem motion_update {α : Type} [LinearOrderedField α] (g : Globals α) (x y : Int) :
    (motion x y g).lastMouseX = x ∧
    (motion x y g).lastMouseY = y ∧
    (motion x y g).leftButtonDown = g.leftButtonDown ∧
    (motion x y g).rightButtonDown = g.rightButtonDown ∧
    (g.leftButtonDown = true →
      (motion x y g).rotateX = g.rotateX + ((y - g.lastMouseY : Int) : α) * (3 / 10) ∧
      (motion x y g).rotationY = g.rotationY + ((x - g.lastMouseX : Int) : α) * (3 / 10)) ∧
    (g.leftButtonDown = false →
      (motion x y g).rotateX = g.rotateX ∧ (motion x y g).rotationY = g.rotationY) ∧
    (g.rightButtonDown = true →
      (motion x y g).zoom = g.zoom + ((y - g.lastMouseY : Int) : α) * (1 / 100)) ∧
    (g.rightButtonDown = false → (motion x y g).zoom = g.zoom) ∧
    (motion x y g).rotateY = g.rotateY ∧
    (motion x y g).brainVertices = g.brainVertices ∧
    (motion x y g).brainIndices = g.brainIndices ∧
    (motion x y g).electrodePositions = g.electrodePositions ∧
    (motion x y g).activityValues = g.activityValues ∧
    (motion x y g).brainMin = g.brainMin ∧
    (motion x y g).brainMax = g.brainMax ∧
    (motion x y g).electrodesMin = g.electrodesMin ∧
    (motion x y g).electrodesMax = g.electrodesMax ∧
    (motion x y g).brainCentre = g.brainCentre := by
  cases hl : g.leftButtonDown <;> cases hr : g.rightButtonDown <;>
    simp [motion, hl, hr]

/-- The pointer-move theorem during a left-button drag from `(10, 20)` to `(30, 10)`. -/
theorem motion_update_witness :
    (draggingGlobals : Globals ℚ).leftButtonDown = true ∧
    (motion 30 10 (draggingGlobals : Globals ℚ)).rotateX = -3 ∧
    (motion 30 10 (draggingGlobals : Globals ℚ)).rotationY = 6 := by
  have h := (motion_update (draggingGlobals : Globals ℚ) 30 10).2.2.2.2.1 rfl
  refine ⟨rfl, ?_, ?_⟩
  · rw [h.1]; norm_num [draggingGlobals, scenarioGlobals, Globals.initial]
  · rw [h.2]; norm_num [draggingGlobals, scenarioGlobals, Globals.initial]

/-! ## End-to-end scenario -/

theorem sqrt_half : Real.sqrt (1 / 2) = Real.sqrt 2 / 2 := by
  have h2 : (0 : ℝ) ≤ Real.sqrt 2 / 2 := by positivity
  rw [show (1 / 2 : ℝ) = (Real.sqrt 2 / 2) ^ 2 by
    rw [div_pow, Real.sq_sqrt (by norm_num)]; norm_num]
  exact Real.sqrt_sq h2

theorem sqrt_two_bounds : (1414 / 1000 : ℝ) < Real.sqrt 2 ∧ Real.sqrt 2 < 1415 / 1000 := by
  constructor
  · rw [Real.lt_sqrt (by norm_num)]; norm_num
  · rw [Real.sqrt_lt' (by norm_num)]; norm_num

theorem activityToColor_half :
    activityToColor Real.sqrt (1 / 2) = (Real.sqrt 2 - 1, 2 - Real.sqrt 2, 0) := by
  have hc : stdClamp (1 / 2 : ℝ) 0 1 = 1 / 2 := by norm_num [stdClamp]
  have hb : ¬ (Real.sqrt 2 / 2 < 1 / 2) := by
    have := sqrt_two_bounds.1
    intro h; linarith
  simp only [activityToColor, hc, sqrt_half, if_neg hb, colorHigh]
  refine Prod.ext ?_ (Prod.ext ?_ rfl) <;> simp <;> ring

/-- Claim C9 (end-to-end scenario). With mesh box `((0,0,0),(10,10,10))`,
electrode box `((0,0,0),(2,2,2))`, `"Fz"` at `(1,1,1)`, and raw activities with
maximum 10 and `"Fz" = 5`: registration puts `"Fz"` at `(5,5,5)`, its stored
activity is `1/2`, and `activityToColor (1/2)` takes the second branch with
`r = 2 * (sqrt (1/2) - 1/2) = sqrt 2 - 1` (about 0.414),
`g = 1 - r = 2 - sqrt 2` (about 0.586) and `b = 0`. -/
theorem end_to_end_scenario (g : Globals ℝ) (data : List (String × ℝ))
    (hbmin : g.brainMin = ⟨0, 0, 0⟩) (hbmax : g.brainMax = ⟨10, 10, 10⟩)
    (hemin : g.electrodesMin = ⟨0, 0, 0⟩) (hemax : g.electrodesMax = ⟨2, 2, 2⟩)
    (hFz : mapFind g.electrodePositions "Fz" = some ⟨1, 1, 1⟩)
    (hmax : (loadActivityValuesRaw data (normalizeElectrodePositions g)).2 = 10)
    (hraw : mapFind (loadActivityValuesRaw data (normalizeElectrodePositions g)).1 "Fz"
      = some 5) :
    mapFind (normalizeElectrodePositions g).electrodePositions "Fz" = some ⟨5, 5, 5⟩ ∧
    mapFind (loadActivityValues data (normalizeElectrodePositions g)).1.activityValues "Fz"
      = some (1 / 2) ∧
    ¬ (Real.sqrt (stdClamp (1 / 2) 0 1) < 1 / 2) ∧
    activityToColor Real.sqrt (1 / 2) = colorHigh (Real.sqrt (1 / 2)) ∧
    colorHigh (Real.sqrt (1 / 2))
      = (2 * (Real.sqrt (1 / 2) - 1 / 2), 1 - 2 * (Real.sqrt (1 / 2) - 1 / 2), 0) ∧
    activityToColor Real.sqrt (1 / 2) = (Real.sqrt 2 - 1, 2 - Real.sqrt 2, 0) ∧
    |Real.sqrt 2 - 1 - 414 / 1000| < 1 / 1000 ∧
    |2 - Real.sqrt 2 - 586 / 1000| < 1 / 1000 := by
  have hc : stdClamp (1 / 2 : ℝ) 0 1 = 1 / 2 := by norm_num [stdClamp]
  obtain ⟨hlo, hhi⟩ := sqrt_two_bounds
  have hb : ¬ (Real.sqrt 2 / 2 < 1 / 2) := by intro h; linarith
  refine ⟨?_, ?_, ?_, ?_, ?_, activityToColor_half, ?_, ?_⟩
  · rw [normalizeElectrodePositions_map, mapFind_map (registered g), hFz]
    simp only [Option.map_some', registered, registerPoint, hbmin, hbmax, hemin, hemax]
    norm_num
  · have hpos : (0 : ℝ) < (loadActivityValuesRaw data (normalizeElectrodePositions g)).2 := by
      rw [hmax]; norm_num
    have hval : (loadActivityValues data (normalizeElectrodePositions g)).1.activityValues
        = (loadActivityValuesRaw data (normalizeElectrodePositions g)).1.map
            fun entry => (entry.1,
              entry.2 / (loadActivityValuesRaw data (normalizeElectrodePositions g)).2) := by
      simp only [loadActivityValues]
      rw [if_pos hpos]
    rw [hval,
      mapFind_map (fun v => v / (loadActivityValuesRaw data (normalizeElectrodePositions g)).2),
      hraw, hmax]
    norm_num
  · rw [hc, sqrt_half]; exact hb
  · simp only [activityToColor, hc, sqrt_half, if_neg hb]
  · simp only [colorHigh]
    refine Prod.ext ?_ (Prod.ext ?_ rfl) <;> simp <;> ring
  · rw [abs_lt]; constructor <;> linarith
  · rw [abs_lt]; constructor <;> linarith

/-- The scenario theorem at the scenario state and activity file. -/
theorem end_to_end_scenario_witness :
    mapFind (normalizeElectrodePositions (scenarioGlobals : Globals ℝ)).electrodePositions "Fz"
      = some ⟨5, 5, 5⟩ ∧
    mapFind (loadActivityValues (scenarioActivity : List (String × ℝ))
      (normalizeElectrodePositions (scenarioGlobals : Globals ℝ))).1.activityValues "Fz"
      = some (1 / 2) := by
  have hlt : ¬ ("Fz" : String) < "A1" := by rw [String.lt_iff_toList_lt]; decide
  have hne : ¬ ("Fz" : String) = "A1" := by decide
  have h := end_to_end_scenario (scenarioGlobals : Globals ℝ) scenarioActivity rfl rfl rfl rfl
    (by simp [mapFind, scenarioGlobals, hne])
    (by norm_num [loadActivityValuesRaw, scenarioActivity, stdMax])
    (by
      norm_num [loadActivityValuesRaw, scenarioActivity, normalizeElectrodePositions,
        scenarioGlobals, Globals.initial, mapAssign, mapFind, hlt, hne])
  exact ⟨h.1, h.2.1⟩

/-! ## Electrode rendering -/

theorem glRun_append {α : Type} [LinearOrderedField α]
    (lib : Lib α) (st : GLState α) (xs ys : List (GLCall α)) :
    glRun lib st (xs ++ ys) = glRun lib (glRun lib st xs) ys := by
  simp [glRun, List.foldl_append]

theorem glRun_bitmap {α : Type} [LinearOrderedField α]
    (lib : Lib α) (st : GLState α) (cs : List Char) :
    glRun lib st (cs.map .bitmapCharacter) =
      { st with rendered := st.rendered ++
          cs.map fun c => ⟨.bitmapCharacter c, st.modelview, st.color⟩ } := by
  induction cs generalizing st with
  | nil => simp [glRun]
  | cons c cs ih =>
    show glRun lib (glStep lib st (.bitmapCharacter c)) (cs.map .bitmapCharacter) = _
    rw [ih]
    simp [glStep]

/-- The primitives one present electrode adds to the draw surface. -/
theorem glRun_drawElectrodeCalls {α : Type} [LinearOrderedField α]
    (lib : Lib α) (st : GLState α) (label : String)
    (pos : Vec3 α) (activity : α) :
    glRun lib st (drawElectrodeCalls lib label pos activity) =
      { modelview := st.modelview
        stack := st.stack
        color := (0, 0, 0)
        rendered := st.rendered ++
          (⟨.solidSphere (1 / 100) 16 16, st.modelview * translation pos.x pos.y pos.z,
              activityToColor lib.sqrt activity⟩ ::
            ⟨.rasterPos3f (pos.x + 25 / 1000) (pos.y + 12 / 1000) pos.z, st.modelview,
              (0, 0, 0)⟩ ::
            (lib.snprintf label activity).toList.map fun c =>
              ⟨.bitmapCharacter c, st.modelview, (0, 0, 0)⟩) } := by
  unfold drawElectrodeCalls
  rw [glRun_append, glRun_bitmap]
  simp [glRun, glStep]

theorem filter_isSphere_drawElectrodeCalls {α : Type} [LinearOrderedField α]
    (lib : Lib α) (label : String) (pos : Vec3 α)
    (activity : α) :
    ((drawElectrodeCalls lib label pos activity).filter GLCall.isSphere).length = 1 ∧
    ((drawElectrodeCalls lib label pos activity).filter GLCall.isLabel).length = 1 := by
  have h1 : ∀ cs : List Char,
      (cs.map (GLCall.bitmapCharacter : Char → GLCall α)).filter GLCall.isSphere = [] := by
    intro cs
    induction cs with
    | nil => rfl
    | cons c cs _ => simp [GLCall.isSphere]
  have h2 : ∀ cs : List Char,
      (cs.map (GLCall.bitmapCharacter : Char → GLCall α)).filter GLCall.isLabel = [] := by
    intro cs
    induction cs with
    | nil => rfl
    | cons c cs _ => simp [GLCall.isLabel]
  constructor
  · simp only [drawElectrodeCalls, List.filter_append, h1]
    simp [GLCall.isSphere]
  · simp only [drawElectrodeCalls, List.filter_append, h2]
    simp [GLCall.isLabel]

theorem count_drawElectrodes {α : Type} [LinearOrderedField α]
    (lib : Lib α) (act : StdMap α) (entries : StdMap (Vec3 α)) :
    ((entries.flatMap (drawElectrode lib act)).filter GLCall.isSphere).length
      = (entries.filter fun entry => (mapFind act entry.1).isSome).length ∧
    ((entries.flatMap (drawElectrode lib act)).filter GLCall.isLabel).length
      = (entries.filter fun entry => (mapFind act entry.1).isSome).length := by
  induction entries with
  | nil => simp
  | cons e rest ih =>
    obtain ⟨ih1, ih2⟩ := ih
    simp only [List.flatMap_cons, List.filter_append, List.length_append, ih1, ih2,
      List.filter_cons]
    cases hf : mapFind act e.1 with
    | none => simp [drawElectrode, hf]
    | some a =>
      obtain ⟨c1, c2⟩ := filter_isSphere_drawElectrodeCalls lib e.1 e.2 a
      simp [drawElectrode, hf, c1, c2, Nat.add_comm]

theorem glRun_drawElectrodes {α : Type} [LinearOrderedField α]
    (lib : Lib α) (act : StdMap α) (entries : StdMap (Vec3 α))
    (st : GLState α) :
    (glRun lib st (entries.flatMap (drawElectrode lib act))).modelview = st.modelview ∧
    (glRun lib st (entries.flatMap (drawElectrode lib act))).stack = st.stack ∧
    spheres (glRun lib st (entries.flatMap (drawElectrode lib act))).rendered
      = spheres st.rendered ++ entries.filterMap (electrodeSphere lib act st.modelview) ∧
    meshes (glRun lib st (entries.flatMap (drawElectrode lib act))).rendered
      = meshes st.rendered := by
  induction entries generalizing st with
  | nil => simp [glRun]
  | cons e rest ih =>
    rw [List.flatMap_cons, glRun_append]
    cases hf : mapFind act e.1 with
    | none =>
      have hd : drawElectrode lib act e = [] := by simp [drawElectrode, hf]
      have he : electrodeSphere lib act st.modelview e = none := by
        simp [electrodeSphere, hf]
      rw [hd]
      simpa [glRun, List.filterMap_cons, he] using ih st
    | some a =>
      have hd : drawElectrode lib act e = drawElectrodeCalls lib e.1 e.2 a := by
        simp [drawElectrode, hf]
      have he : electrodeSphere lib act st.modelview e
          = some ⟨.solidSphere (1 / 100) 16 16, st.modelview * translateBy e.2,
              activityToColor lib.sqrt a⟩ := by
        simp [electrodeSphere, hf]
      rw [hd, glRun_drawElectrodeCalls]
      obtain ⟨i1, i2, i3, i4⟩ := ih
        { modelview := st.modelview
          stack := st.stack
          color := (0, 0, 0)
          rendered := st.rendered ++
            (⟨.solidSphere (1 / 100) 16 16, st.modelview * translation e.2.x e.2.y e.2.z,
                activityToColor lib.sqrt a⟩ ::
              ⟨.rasterPos3f (e.2.x + 25 / 1000) (e.2.y + 12 / 1000) e.2.z, st.modelview,
                (0, 0, 0)⟩ ::
              (lib.snprintf e.1 a).toList.map fun c =>
                ⟨.bitmapCharacter c, st.modelview, (0, 0, 0)⟩) }
      refine ⟨i1, i2, ?_, ?_⟩
      · rw [i3, List.filterMap_cons, he]
        simp [spheres, List.filter_append, List.filter_cons, GLCall.isSphere, translateBy,
          List.filter_map, Function.comp_def]
      · rw [i4]
        simp [meshes, List.filter_append, List.filter_cons, GLCall.isMesh,
          List.filter_map, Function.comp_def]

/-- Claim C6 (skip rule). `drawElectrodes` issues one sphere call and one
label call per electrode whose label is a key of the activity map, so both
counts equal the number of such electrodes; an electrode whose label is absent
issues no call at all; a present electrode issues the calls of
`drawElectrodeCalls` for its own activity value, and its sphere is rendered at
its position in the colour `activityToColor` gives that value. -/
theorem skip_rule {α : Type} [LinearOrderedField α] (lib : Lib α) (g : Globals α) :
    ((drawElectrodes lib g).filter GLCall.isSphere).length = (withActivity g).length ∧
    ((drawElectrodes lib g).filter GLCall.isLabel).length = (withActivity g).length ∧
    drawElectrodes lib g = (withActivity g).flatMap (drawElectrode lib g.activityValues) ∧
    (∀ entry : String × Vec3 α, mapFind g.activityValues entry.1 = none →
      drawElectrode lib g.activityValues entry = []) ∧
    (∀ (entry : String × Vec3 α) (activity : α),
      mapFind g.activityValues entry.1 = some activity →
      drawElectrode lib g.activityValues entry
        = drawElectrodeCalls lib entry.1 entry.2 activity) ∧
    (∀ st : GLState α,
      spheres (glRun lib st (drawElectrodes lib g)).rendered
        = spheres st.rendered ++
          g.electrodePositions.filterMap
            (electrodeSphere lib g.activityValues st.modelview)) := by
  obtain ⟨c1, c2⟩ := count_drawElectrodes lib g.activityValues g.electrodePositions
  refine ⟨c1, c2, ?_, ?_, ?_, ?_⟩
  · unfold drawElectrodes withActivity
    induction g.electrodePositions with
    | nil => rfl
    | cons e rest ih =>
      cases hf : mapFind g.activityValues e.1 with
      | none => simp [List.filter_cons, hf, drawElectrode, ih]
      | some a => simp [List.filter_cons, hf, ih]
  · intro entry h
    simp [drawElectrode, h]
  · intro entry activity h
    simp [drawElectrode, h]
  · intro st
    exact (glRun_drawElectrodes lib g.activityValues g.electrodePositions st).2.2.1

/-- The skip rule when only `"Fz"` has an activity value. -/
theorem skip_rule_witness :
    mapFind (partialActivityGlobals : Globals ℝ).activityValues "A1" = none ∧
    drawElectrode
      (⟨Real.sqrt, fun a => Real.cos (a * Real.pi / 180),
        fun a => Real.sin (a * Real.pi / 180), fun label _ => label⟩ : Lib ℝ)
      (partialActivityGlobals : Globals ℝ).activityValues ("A1", ⟨0, 0, 0⟩) = [] ∧
    ((drawElectrodes
      (⟨Real.sqrt, fun a => Real.cos (a * Real.pi / 180),
        fun a => Real.sin (a * Real.pi / 180), fun label _ => label⟩ : Lib ℝ)
      (partialActivityGlobals : Globals ℝ)).filter GLCall.isSphere).length = 1 := by
  have hne : ¬ ("A1" : String) = "Fz" := by decide
  have hne' : ¬ ("Oz" : String) = "Fz" := by decide
  have h0 : mapFind (partialActivityGlobals : Globals ℝ).activityValues "A1" = none := by
    simp [partialActivityGlobals, mapFind, hne]
  have h := skip_rule
    (⟨Real.sqrt, fun a => Real.cos (a * Real.pi / 180),
      fun a => Real.sin (a * Real.pi / 180), fun label _ => label⟩ : Lib ℝ)
    (partialActivityGlobals : Globals ℝ)
  refine ⟨h0, h.2.2.2.1 ("A1", ⟨0, 0, 0⟩) h0, ?_⟩
  rw [h.1]
  simp [withActivity, partialActivityGlobals, scenarioGlobals, Globals.initial, mapFind,
    List.filter_cons, hne, hne']

/-! ## The frame transform -/

theorem translation_mul {α : Type} [LinearOrderedField α] (a b c x y z : α) :
    translation a b c * translation x y z = translation (a + x) (b + y) (c + z) := by
  ext i j
  fin_cases i <;> fin_cases j <;>
    simp [translation, Matrix.mul_apply, Fin.sum_univ_four, Matrix.vecHead, Matrix.vecTail] <;>
    ring

theorem translation_zero {α : Type} [LinearOrderedField α] : translation (0 : α) 0 0 = 1 := by
  ext i j
  fin_cases i <;> fin_cases j <;>
    simp [translation, Matrix.vecHead, Matrix.vecTail]

theorem flip_mul_flip {α : Type} [LinearOrderedField α]
    : rotation (-1 : α) 0 1 0 0 * rotation (-1) 0 1 0 0 = 1 := by
  ext i j
  fin_cases i <;> fin_cases j <;>
    simp [rotation, Matrix.mul_apply, Fin.sum_univ_four, Matrix.vecHead, Matrix.vecTail]

/-- The two flips of `display` cancel on the mesh: the fixed part of its
modelview matrix is the translation by `-c`. -/
theorem mesh_fixed_part {α : Type} [LinearOrderedField α] (c : Vec3 α) :
    rotation (-1 : α) 0 1 0 0 * translateBy c.neg
        * translateBy c * rotation (-1) 0 1 0 0 * translateBy c.neg
      = translateBy c.neg := by
  have h1 : translateBy c.neg * translateBy c = (1 : Mat4 α) := by
    simp only [translateBy, Vec3.neg, translation_mul, neg_add_cancel, translation_zero]
  rw [Matrix.mul_assoc (rotation (-1 : α) 0 1 0 0), h1, Matrix.mul_one, flip_mul_flip,
    Matrix.one_mul]

theorem transformPoint_translateBy {α : Type} [LinearOrderedField α] (c v : Vec3 α) :
    transformPoint (translateBy c) v = v.add c := by
  simp [transformPoint, translateBy, translation, Vec3.add, Matrix.mulVec, Matrix.dotProduct,
    Fin.sum_univ_four, Matrix.vecHead, Matrix.vecTail]

theorem transformPoint_flip {α : Type} [LinearOrderedField α] (v : Vec3 α) :
    transformPoint (rotation (-1 : α) 0 1 0 0) v = flipX v := by
  simp [transformPoint, rotation, flipX, Matrix.mulVec, Matrix.dotProduct,
    Fin.sum_univ_four, Matrix.vecHead, Matrix.vecTail]

theorem electrode_fixed_part {α : Type} [LinearOrderedField α] (c p : Vec3 α) :
    (rotation (-1 : α) 0 1 0 0 * translateBy c.neg * translateBy p).mulVec ![0, 0, 0, 1]
      = ![(flipX (p.sub c)).x, (flipX (p.sub c)).y, (flipX (p.sub c)).z, 1] := by
  ext i
  fin_cases i <;>
    simp [rotation, translateBy, translation, Vec3.neg, Vec3.sub, flipX, Matrix.mulVec,
      Matrix.dotProduct, Matrix.mul_apply, Fin.sum_univ_four, Matrix.vecHead,
      Matrix.vecTail] <;>
    ring

theorem mesh_point_mulVec {α : Type} [LinearOrderedField α] (c q : Vec3 α) :
    (translateBy c.neg).mulVec ![(c.add q).x, (c.add q).y, (c.add q).z, 1]
      = ![q.x, q.y, q.z, 1] := by
  ext i
  fin_cases i <;>
    simp [translateBy, translation, Vec3.neg, Vec3.add, Matrix.mulVec,
      Matrix.dotProduct, Fin.sum_univ_four, Matrix.vecHead, Matrix.vecTail]

/-- The OpenGL state when `display` reaches `drawElectrodes`. -/
theorem glRun_display_mesh {α : Type} [LinearOrderedField α]
    (lib : Lib α) (g : Globals α) (st : GLState α) :
    glRun lib st
      ([ GLCall.clear, .loadIdentity, .translatef 0 0 g.zoom, .rotatef g.rotateX 1 0 0,
         .rotatef g.rotationY 0 1 0, .rotatef 180 1 0 0,
         .translatef (-g.brainCentre.x) (-g.brainCentre.y) (-g.brainCentre.z),
         .pushMatrix,
         .translatef g.brainCentre.x g.brainCentre.y g.brainCentre.z,
         .rotatef 180 1 0 0,
         .translatef (-g.brainCentre.x) (-g.brainCentre.y) (-g.brainCentre.z) ]
        ++ drawBrainModel g ++ [.popMatrix]) =
      { modelview := viewMatrix lib g * (flipMatrix lib * translateBy g.brainCentre.neg)
        stack := st.stack
        color := (86 / 100, 72 / 100, 72 / 100)
        rendered :=
          [⟨.drawElements g.brainIndices,
            viewMatrix lib g * (flipMatrix lib * translateBy g.brainCentre.neg
              * translateBy g.brainCentre * flipMatrix lib * translateBy g.brainCentre.neg),
            (86 / 100, 72 / 100, 72 / 100)⟩] } := by
  simp [glRun, glStep, drawBrainModel, viewMatrix, flipMatrix, translateBy, Vec3.neg,
    Matrix.mul_assoc]

theorem frame_eq {α : Type} [LinearOrderedField α]
    (lib : Lib α) (g : Globals α) (st : GLState α)
    (hc : g.brainCentre = ⟨(g.brainMin.x + g.brainMax.x) / 2,
      (g.brainMin.y + g.brainMax.y) / 2, (g.brainMin.z + g.brainMax.z) / 2⟩) :
    meshes (frame lib g st) =
      [⟨.drawElements g.brainIndices,
        viewMatrix lib g * (flipMatrix lib * translateBy g.brainCentre.neg
          * translateBy g.brainCentre * flipMatrix lib * translateBy g.brainCentre.neg),
        (86 / 100, 72 / 100, 72 / 100)⟩] ∧
    spheres (frame lib g st) =
      g.electrodePositions.filterMap (electrodeSphere lib g.activityValues
        (viewMatrix lib g * (flipMatrix lib * translateBy g.brainCentre.neg))) := by
  have hx : (g.brainMin.x + g.brainMax.x) / 2 = g.brainCentre.x := by rw [hc]
  have hy : (g.brainMin.y + g.brainMax.y) / 2 = g.brainCentre.y := by rw [hc]
  have hz : (g.brainMin.z + g.brainMax.z) / 2 = g.brainCentre.z := by rw [hc]
  have hd : display lib g =
      ([ GLCall.clear, .loadIdentity, .translatef 0 0 g.zoom, .rotatef g.rotateX 1 0 0,
         .rotatef g.rotationY 0 1 0, .rotatef 180 1 0 0,
         .translatef (-g.brainCentre.x) (-g.brainCentre.y) (-g.brainCentre.z),
         .pushMatrix,
         .translatef g.brainCentre.x g.brainCentre.y g.brainCentre.z,
         .rotatef 180 1 0 0,
         .translatef (-g.brainCentre.x) (-g.brainCentre.y) (-g.brainCentre.z) ]
        ++ drawBrainModel g ++ [.popMatrix])
      ++ g.electrodePositions.flatMap (drawElectrode lib g.activityValues)
      ++ [.swapBuffers] := by
    simp only [display, hx, hy, hz, drawElectrodes]
  unfold frame
  rw [hd, glRun_append, glRun_append, glRun_display_mesh]
  obtain ⟨-, -, h3, h4⟩ := glRun_drawElectrodes lib g.activityValues g.electrodePositions
    { modelview := viewMatrix lib g * (flipMatrix lib * translateBy g.brainCentre.neg)
      stack := st.stack
      color := (86 / 100, 72 / 100, 72 / 100)
      rendered :=
        [⟨.drawElements g.brainIndices,
          viewMatrix lib g * (flipMatrix lib * translateBy g.brainCentre.neg
            * translateBy g.brainCentre * flipMatrix lib * translateBy g.brainCentre.neg),
          (86 / 100, 72 / 100, 72 / 100)⟩] }
  constructor
  · simp only [glRun, List.foldl_cons, List.foldl_nil, glStep]
    simp only [glRun] at h4
    rw [h4]
    simp [meshes, GLCall.isMesh]
  · simp only [glRun, List.foldl_cons, List.foldl_nil, glStep]
    simp only [glRun] at h3
    rw [h3]
    simp [spheres, GLCall.isSphere]

/-- After the loading steps of `main`, `brainCentre` is the centre of the
mesh box `(brainMin, brainMax)`: the hypothesis of the frame theorem. -/
theorem startup_brainCentre {α : Type} [LinearOrderedField α]
    (attrib : List α) (shapes : List (List Nat))
    (electrodeData : List (String × (α × α × α))) (activityData : List (String × α)) :
    (startup attrib shapes electrodeData activityData).brainCentre =
      ⟨((startup attrib shapes electrodeData activityData).brainMin.x
          + (startup attrib shapes electrodeData activityData).brainMax.x) / 2,
       ((startup attrib shapes electrodeData activityData).brainMin.y
          + (startup attrib shapes electrodeData activityData).brainMax.y) / 2,
       ((startup attrib shapes electrodeData activityData).brainMin.z
          + (startup attrib shapes electrodeData activityData).brainMax.z) / 2⟩ := by
  have keep : ∀ (data : List (String × (α × α × α))) (g : Globals α),
      (loadElectrodePositions data g).brainMin = g.brainMin ∧
      (loadElectrodePositions data g).brainMax = g.brainMax ∧
      (loadElectrodePositions data g).brainCentre = g.brainCentre := by
    intro data
    induction data with
    | nil => intro g; exact ⟨rfl, rfl, rfl⟩
    | cons item rest ih => intro g; exact ih (loadElectrodePositionsStep g item)
  obtain ⟨h1, h2, h3⟩ := keep electrodeData (loadBrainModel attrib shapes Globals.initial)
  simp only [startup, loadActivityValues, normalizeElectrodePositions, h1, h2, h3]
  rfl

/-- Claim C10 (the two fixed 180-degree flips of `display`). With `F` the
rotation `glRotatef(180, 1, 0, 0)` (which is `diag(1, -1, -1)`) and `c` the
centre of the mesh box: the mesh is rendered under the user-driven view matrix
times a fixed part (flip, translate by `-c`, translate by `c`, flip, translate
by `-c`) that maps every vertex `v` to `v - c`; each electrode sphere is
rendered under the same view matrix times a fixed part that maps the sphere at
`p` to `F (p - c)`; hence the electrode appears where the mesh-space point
`c + F (p - c)` is drawn, which is `p` mirrored in y and z about `c`. -/
theorem display_flips {α : Type} [LinearOrderedField α] (lib : Lib α) (g : Globals α)
    (st : GLState α) (hcos : lib.cosDeg 180 = -1) (hsin : lib.sinDeg 180 = 0)
    (hc : g.brainCentre = ⟨(g.brainMin.x + g.brainMax.x) / 2,
      (g.brainMin.y + g.brainMax.y) / 2, (g.brainMin.z + g.brainMax.z) / 2⟩) :
    (∀ v : Vec3 α, transformPoint (flipMatrix lib) v = flipX v) ∧
    meshes (frame lib g st) =
      [⟨.drawElements g.brainIndices,
        viewMatrix lib g * (flipMatrix lib * translateBy g.brainCentre.neg
          * translateBy g.brainCentre * flipMatrix lib * translateBy g.brainCentre.neg),
        (86 / 100, 72 / 100, 72 / 100)⟩] ∧
    (∀ v : Vec3 α,
      transformPoint (flipMatrix lib * translateBy g.brainCentre.neg
        * translateBy g.brainCentre * flipMatrix lib * translateBy g.brainCentre.neg) v
        = v.sub g.brainCentre) ∧
    spheres (frame lib g st) =
      g.electrodePositions.filterMap (electrodeSphere lib g.activityValues
        (viewMatrix lib g * (flipMatrix lib * translateBy g.brainCentre.neg))) ∧
    (∀ p : Vec3 α,
      transformPoint (flipMatrix lib * translateBy g.brainCentre.neg * translateBy p) ⟨0, 0, 0⟩
        = flipX (p.sub g.brainCentre)) ∧
    (∀ p : Vec3 α,
      transformPoint
          (viewMatrix lib g * (flipMatrix lib * translateBy g.brainCentre.neg) * translateBy p)
          ⟨0, 0, 0⟩
        = transformPoint
          (viewMatrix lib g * (flipMatrix lib * translateBy g.brainCentre.neg
            * translateBy g.brainCentre * flipMatrix lib * translateBy g.brainCentre.neg))
          (g.brainCentre.add (flipX (p.sub g.brainCentre)))) ∧
    (∀ p : Vec3 α,
      g.brainCentre.add (flipX (p.sub g.brainCentre))
        = ⟨p.x, 2 * g.brainCentre.y - p.y, 2 * g.brainCentre.z - p.z⟩) := by
  have hF : flipMatrix lib = rotation (-1 : α) 0 1 0 0 := by
    simp only [flipMatrix, hcos, hsin]
  obtain ⟨hm, hs⟩ := frame_eq lib g st hc
  refine ⟨?_, hm, ?_, hs, ?_, ?_, ?_⟩
  · intro v; rw [hF]; exact transformPoint_flip v
  · intro v
    rw [hF, mesh_fixed_part, transformPoint_translateBy]
    simp [Vec3.add, Vec3.sub, Vec3.neg, sub_eq_add_neg]
  · intro p
    simp only [transformPoint, hF, electrode_fixed_part]
    simp
  · intro p
    rw [hF, mesh_fixed_part]
    simp only [transformPoint]
    rw [Matrix.mul_assoc, ← Matrix.mulVec_mulVec, electrode_fixed_part,
      ← Matrix.mulVec_mulVec, mesh_point_mulVec]
  · intro p
    simp only [Vec3.add, Vec3.sub, flipX, Vec3.mk.injEq]
    refine ⟨by ring, by ring, by ring⟩

/-- The flip theorem with the real cosine and sine, at the scenario state. -/
theorem display_flips_witness :
    Real.cos (180 * Real.pi / 180) = -1 ∧ Real.sin (180 * Real.pi / 180) = 0 ∧
    transformPoint
      (flipMatrix (⟨Real.sqrt, fun a => Real.cos (a * Real.pi / 180),
          fun a => Real.sin (a * Real.pi / 180), fun label _ => label⟩ : Lib ℝ)
        * translateBy (scenarioGlobals : Globals ℝ).brainCentre.neg
        * translateBy ⟨10, 10, 10⟩) ⟨0, 0, 0⟩
      = ⟨5, -5, -5⟩ := by
  have hcos : Real.cos (180 * Real.pi / 180) = -1 := by
    rw [show (180 * Real.pi / 180 : ℝ) = Real.pi by ring]; exact Real.cos_pi
  have hsin : Real.sin (180 * Real.pi / 180) = 0 := by
    rw [show (180 * Real.pi / 180 : ℝ) = Real.pi by ring]; exact Real.sin_pi
  have h := display_flips
    (⟨Real.sqrt, fun a => Real.cos (a * Real.pi / 180),
      fun a => Real.sin (a * Real.pi / 180), fun label _ => label⟩ : Lib ℝ)
    (scenarioGlobals : Globals ℝ) freshGL hcos hsin
    (by norm_num [scenarioGlobals])
  refine ⟨hcos, hsin, ?_⟩
  rw [h.2.2.2.2.1 ⟨10, 10, 10⟩]
  norm_num [flipX, Vec3.sub, scenarioGlobals]

end BrainActivity
